import Mathlib

/-!
Verification development for the ai-pdf-dashboard backend.

This file gives a shallow embedding of the data model and the pure
algorithms of the backend services (`aiService` token-budget reduction and
gateway guard, `parseJSONResponse` decoding, structured-data validation,
and the `calculator` aggregation/formatting engine), together with
theorems settling the specification claims about them.

Modelling conventions:
* JavaScript numbers are modelled as `JSNum`: `NaN`, the two infinities,
  and finite values as exact rationals (`ℚ`).  The source never relies on
  binary floating-point rounding for the properties proved here.
* JavaScript strings are modelled as Lean `String`s; `length`, `trim`,
  `substring`, `split` are modelled on the character list.
* Built-in locale formatting (`Intl.NumberFormat` for `en-US`,
  `Number.prototype.toLocaleString`, `Number.prototype.toFixed`) is
  modelled by explicit functions implementing the ECMA-402/ECMA-262
  rendering for the options the source passes.
* Regular-expression heuristics (the numeric-content line patterns and the
  chunk scorer) are abstracted as function parameters: every theorem below
  holds for an arbitrary line predicate and an arbitrary chunk scorer, so
  nothing depends on the concrete pattern battery.
* The network and the remote model are abstracted as function parameters
  (`net`, `ai`); the code under test never inspects their internals.
-/

/-! ## JavaScript string primitives -/

/-- whitespace recognised by JS `trim`/`\s` (ASCII range plus NBSP). -/
def jsWhitespace (c : Char) : Bool :=
  c = ' ' || c = '\t' || c = '\n' || c = '\r' ||
  c.toNat = 11 || c.toNat = 12 || c.toNat = 160

/-- character-list version of `String.prototype.trim`. -/
def jsTrimChars (cs : List Char) : List Char :=
  ((cs.dropWhile jsWhitespace).reverse.dropWhile jsWhitespace).reverse

/-- JS `String.prototype.trim`. -/
def jsTrimStr (s : String) : String :=
  (jsTrimChars s.toList).asString

/-- JS `String.prototype.substring(0, n)` (take the first `n` characters). -/
def jsSubstringTo (s : String) (n : Nat) : String :=
  (s.toList.take n).asString

/-- decimal digit test. -/
def isDigitChar (c : Char) : Bool :=
  48 ≤ c.toNat && c.toNat ≤ 57

/-- numeric value of a decimal digit character. -/
def digitVal (c : Char) : Nat :=
  c.toNat - 48

/-- character of a decimal digit. -/
def digitChar (n : Nat) : Char :=
  Char.ofNat (48 + n)

/-- value of a big-endian digit string. -/
def natOfDigits (ds : List Char) : Nat :=
  ds.foldl (fun a c => a * 10 + digitVal c) 0

/-- little-endian digit characters of `n` (`fuel`-bounded). -/
def natToCharsAux : Nat → Nat → List Char
  | 0, _ => []
  | f + 1, n => if n = 0 then [] else digitChar (n % 10) :: natToCharsAux f (n / 10)

/-- decimal rendering of a natural number (big-endian, no leading zeros). -/
def natToChars (n : Nat) : List Char :=
  if n = 0 then ['0'] else (natToCharsAux (n + 1) n).reverse

/-- decimal rendering of a natural number as a string. -/
def natToString (n : Nat) : String :=
  (natToChars n).asString

/-- comma insertion over a little-endian digit list (groups of three). -/
def commaGroupAux : Nat → List Char → List Char
  | _, [] => []
  | k, c :: cs =>
    if k = 3 then ',' :: c :: commaGroupAux 1 cs else c :: commaGroupAux (k + 1) cs

/-- en-US thousands grouping of a natural number, e.g. `1234567 ↦ "1,234,567"`. -/
def natGroupedString (n : Nat) : String :=
  ((commaGroupAux 0 (natToChars n).reverse).reverse).asString

/-- ASCII lower-casing of a character (what `toLowerCase` does on the
format/calculation strings the source switches on). -/
def lowerChar (c : Char) : Char :=
  if 65 ≤ c.toNat && c.toNat ≤ 90 then Char.ofNat (c.toNat + 32) else c

/-- JS `String.prototype.toLowerCase` (ASCII part). -/
def toLowerStr (s : String) : String :=
  (s.toList.map lowerChar).asString

/-! ## JavaScript numbers -/

/-- a JavaScript number: `NaN`, `±Infinity`, or a finite value (modelled
as an exact rational). -/
inductive JSNum where
  | nan
  | posInf
  | negInf
  | fin (q : ℚ)
  deriving DecidableEq

/-- JS `isNaN` on a number. -/
def JSNum.isNaN : JSNum → Bool
  | .nan => true
  | _ => false

/-- JS `isFinite` on a number. -/
def JSNum.isFinite : JSNum → Bool
  | .fin _ => true
  | _ => false

/-- JS `+` on numbers. -/
def jsAdd : JSNum → JSNum → JSNum
  | .nan, _ => .nan
  | _, .nan => .nan
  | .posInf, .negInf => .nan
  | .negInf, .posInf => .nan
  | .posInf, _ => .posInf
  | _, .posInf => .posInf
  | .negInf, _ => .negInf
  | _, .negInf => .negInf
  | .fin a, .fin b => .fin (a + b)

/-- JS division of a number by a positive count (used by `calculateAverage`,
which guards the count to be positive). -/
def jsDivNat (x : JSNum) (n : Nat) : JSNum :=
  match x with
  | .nan => .nan
  | .posInf => .posInf
  | .negInf => .negInf
  | .fin q => .fin (q / n)

/-- JS `Math.max` of two numbers. -/
def jsMax2 : JSNum → JSNum → JSNum
  | .nan, _ => .nan
  | _, .nan => .nan
  | .posInf, _ => .posInf
  | _, .posInf => .posInf
  | .negInf, y => y
  | x, .negInf => x
  | .fin a, .fin b => .fin (max a b)

/-- JS `Math.min` of two numbers. -/
def jsMin2 : JSNum → JSNum → JSNum
  | .nan, _ => .nan
  | _, .nan => .nan
  | .negInf, _ => .negInf
  | _, .negInf => .negInf
  | .posInf, y => y
  | x, .posInf => x
  | .fin a, .fin b => .fin (min a b)

/-! ## JS scalar values and records -/

/-- a scalar JavaScript value as it occurs in an extracted data record
(the spec's `DataRecord` maps field names to scalars). -/
inductive JSVal where
  | num (x : JSNum)
  | str (s : String)
  | bool (b : Bool)
  | null
  deriving DecidableEq

/-- JS truthiness of a scalar value. -/
def jsTruthy : JSVal → Bool
  | .num (.fin q) => decide (q ≠ 0)
  | .num .nan => false
  | .num _ => true
  | .str s => decide (s ≠ "")
  | .bool b => b
  | .null => false

/-- one extracted data record: a field-name/value map (association list in
property-insertion order). -/
abbrev DataRecord : Type := List (String × JSVal)

/-- JS property read `row[column]`; `none` models `undefined`. -/
def jsGet (row : DataRecord) (column : String) : Option JSVal :=
  match row with
  | [] => none
  | (k, v) :: rest => if k = column then some v else jsGet rest column

/-- JS property write `obj[key] = value` (update in place, else append). -/
def jsSet (row : DataRecord) (key : String) (v : JSVal) : DataRecord :=
  match row with
  | [] => [(key, v)]
  | (k, w) :: rest => if k = key then (key, v) :: rest else (k, w) :: jsSet rest key v

/-! ## `parseFloat` -/

/-- core of the `StrDecimalLiteral` grammar used by `parseFloat`: parses an
optional sign, then `Infinity` or digits/fraction/exponent, and returns
the value together with the unconsumed tail.  `none` means no numeric
prefix exists. -/
def floatCore (cs : List Char) : Option (JSNum × List Char) :=
  let signed : Bool × List Char :=
    match cs with
    | '-' :: r => (true, r)
    | '+' :: r => (false, r)
    | _ => (false, cs)
  let neg := signed.1
  let cs1 := signed.2
  if ("Infinity".toList).isPrefixOf cs1 then
    some ((if neg then .negInf else .posInf), cs1.drop 8)
  else
    let intDigits := cs1.takeWhile isDigitChar
    let afterInt := cs1.drop intDigits.length
    let fracPart : List Char × List Char :=
      match afterInt with
      | '.' :: r => (r.takeWhile isDigitChar, r.drop (r.takeWhile isDigitChar).length)
      | _ => ([], afterInt)
    let fracDigits := fracPart.1
    let afterFrac := fracPart.2
    if intDigits = [] && fracDigits = [] then none
    else
      let expPart : Int × List Char :=
        match afterFrac with
        | 'e' :: r => floatExp r afterFrac
        | 'E' :: r => floatExp r afterFrac
        | _ => (0, afterFrac)
      let m : Nat := natOfDigits (intDigits ++ fracDigits)
      let effExp : Int := expPart.1 - fracDigits.length
      let q : ℚ :=
        if 0 ≤ effExp then ((m * 10 ^ effExp.toNat : ℕ) : ℚ)
        else ((m : ℚ) / ((10 ^ (-effExp).toNat : ℕ) : ℚ))
      some (.fin (if neg then -q else q), expPart.2)
where
  /-- exponent tail: consumed only when at least one digit follows. -/
  floatExp (r whole : List Char) : Int × List Char :=
    let signedE : Bool × List Char :=
      match r with
      | '-' :: r2 => (true, r2)
      | '+' :: r2 => (false, r2)
      | _ => (false, r)
    let ds := signedE.2.takeWhile isDigitChar
    if ds = [] then (0, whole)
    else ((if signedE.1 then -(natOfDigits ds : Int) else (natOfDigits ds : Int)),
          signedE.2.drop ds.length)

/-- JS `parseFloat` on a string: skip leading whitespace, take the longest
numeric prefix, `NaN` if there is none. -/
def parseFloatStr (s : String) : JSNum :=
  match floatCore (s.toList.dropWhile jsWhitespace) with
  | some (v, _) => v
  | none => .nan

/-- JS `parseFloat(row[column])`: `undefined`, `null` and booleans stringify
to non-numeric text and give `NaN`; numbers round-trip through their own
string representation. -/
def jsParseFloat (v : Option JSVal) : JSNum :=
  match v with
  | none => .nan
  | some (.num x) => x
  | some (.str s) => parseFloatStr s
  | some (.bool _) => .nan
  | some .null => .nan

/-- JS `ToNumber` on a string (used only via the sort comparator's
implicit coercion; `0x`/`0b`/`0o` literals are not modelled). -/
def jsToNumber (s : String) : JSNum :=
  let t := jsTrimChars s.toList
  if t = [] then .fin 0
  else
    match floatCore t with
    | some (v, []) => v
    | _ => .nan

/-! ## calculator.js: KPI aggregation -/

/-- `calculateSum` from `calculator.js`: reduce with `parseFloat`, an
unparseable (`NaN`) value contributes `0`. -/
def calculateSum (data : List DataRecord) (column : String) : JSNum :=
  data.foldl
    (fun sum row =>
      let val := jsParseFloat (jsGet row column)
      jsAdd sum (if val.isNaN then .fin 0 else val))
    (.fin 0)

/-- `calculateAverage` from `calculator.js`: the sum divided by the number
of records whose value parses, `0` when none do. -/
def calculateAverage (data : List DataRecord) (column : String) : JSNum :=
  let sum := calculateSum data column
  let count := (data.filter (fun row => !(jsParseFloat (jsGet row column)).isNaN)).length
  if 0 < count then jsDivNat sum count else .fin 0

/-- `calculateMax` from `calculator.js`. -/
def calculateMax (data : List DataRecord) (column : String) : JSNum :=
  let values := (data.map (fun row => jsParseFloat (jsGet row column))).filter
    (fun v => !v.isNaN)
  match values with
  | [] => .fin 0
  | v :: vs => vs.foldl jsMax2 v

/-- `calculateMin` from `calculator.js`. -/
def calculateMin (data : List DataRecord) (column : String) : JSNum :=
  let values := (data.map (fun row => jsParseFloat (jsGet row column))).filter
    (fun v => !v.isNaN)
  match values with
  | [] => .fin 0
  | v :: vs => vs.foldl jsMin2 v

/-! ## calculator.js: value formatting -/

/-- `Number.prototype.toFixed(1)` for a nonnegative value: round half-up at
one decimal and render. -/
def jsToFixed1Nonneg (x : ℚ) : String :=
  let n : Nat := (⌊x * 10 + 1 / 2⌋).toNat
  natToString (n / 10) ++ "." ++ String.mk [digitChar (n % 10)]

/-- `Number.prototype.toFixed(1)`: ECMA-262 renders the sign first and
rounds the magnitude. -/
def jsToFixed1 (x : ℚ) : String :=
  if x < 0 then "-" ++ jsToFixed1Nonneg (-x) else jsToFixed1Nonneg x

/-- `Intl.NumberFormat("en-US", currency USD, 0 fraction digits)`: dollar
sign, magnitude rounded half-away-from-zero to an integer, grouped. -/
def intlCurrencyUSD0 (q : ℚ) : String :=
  let sign := if q < 0 then "-" else ""
  let a : ℚ := if q < 0 then -q else q
  sign ++ "$" ++ natGroupedString (⌊a + 1 / 2⌋).toNat

/-- `Intl.NumberFormat("en-US", percent, 1 fraction digit)` applied to
`q / 100`: the percent style scales by 100 again, so `q` itself is
rendered with one fraction digit and a percent sign. -/
def intlPercent1 (q : ℚ) : String :=
  let sign := if q < 0 then "-" else ""
  let a : ℚ := if q < 0 then -q else q
  let n : Nat := (⌊a * 10 + 1 / 2⌋).toNat
  sign ++ natGroupedString (n / 10) ++ "." ++ String.mk [digitChar (n % 10)] ++ "%"

/-- fraction rendering for `toLocaleString`: up to three fraction digits,
trailing zeros dropped, nothing when the fraction is zero. -/
def fracUpTo3 (fp : Nat) : String :=
  if fp = 0 then ""
  else if fp % 100 = 0 then "." ++ String.mk [digitChar (fp / 100)]
  else if fp % 10 = 0 then "." ++ String.mk [digitChar (fp / 100), digitChar (fp / 10 % 10)]
  else "." ++ String.mk [digitChar (fp / 100), digitChar (fp / 10 % 10), digitChar (fp % 10)]

/-- `Number.prototype.toLocaleString()` under the default `en-US` options:
grouping, at most three fraction digits, half-away-from-zero. -/
def jsToLocaleStringEnUS (q : ℚ) : String :=
  let sign := if q < 0 then "-" else ""
  let a : ℚ := if q < 0 then -q else q
  let n : Nat := (⌊a * 1000 + 1 / 2⌋).toNat
  sign ++ natGroupedString (n / 1000) ++ fracUpTo3 (n % 1000)

/-- `formatValue` from `calculator.js`.  The source first returns `"0"` for
`NaN`/non-finite values; that guard is the non-`fin` branch here.  Then it
switches on `format?.toLowerCase()` with `number` and absent/unknown
formats sharing the default abbreviation branch. -/
def formatValue (value : JSNum) (format : Option String) : String :=
  match value with
  | .fin q =>
    match format.map toLowerStr with
    | some "currency" => intlCurrencyUSD0 q
    | some "percent" => intlPercent1 q
    | _ =>
      if (1000000 : ℚ) ≤ q then jsToFixed1 (q / 1000000) ++ "M"
      else if (1000 : ℚ) ≤ q then jsToFixed1 (q / 1000) ++ "K"
      else jsToLocaleStringEnUS q
  | _ => "0"

/-! ## calculator.js: single-KPI computation -/

/-- a KPI definition as synthesized by the model (`format` may be absent). -/
structure KPIDefinition where
  name : String
  calculation : String
  column : String
  format : Option String

/-- a computed KPI as returned by `calculateSingleKPI`. -/
structure ComputedKPI where
  name : String
  value : JSNum
  formattedValue : String
  calculation : String
  column : String
  format : Option String
  deriving DecidableEq

/-- `calculateSingleKPI` from `calculator.js`: switch on the lower-cased
calculation name; an unknown calculation yields `null` (here `none`). -/
def calculateSingleKPI (data : List DataRecord) (definition : KPIDefinition) :
    Option ComputedKPI :=
  let value? : Option JSNum :=
    match toLowerStr definition.calculation with
    | "sum" => some (calculateSum data definition.column)
    | "avg" => some (calculateAverage data definition.column)
    | "average" => some (calculateAverage data definition.column)
    | "count" => some (.fin data.length)
    | "max" => some (calculateMax data definition.column)
    | "min" => some (calculateMin data definition.column)
    | _ => none
  value?.map fun value =>
    { name := definition.name
      value := value
      formattedValue := formatValue value definition.format
      calculation := definition.calculation
      column := definition.column
      format := definition.format }

/-! ## calculator.js: chart preparation -/

/-- smallest `k` (bounded by `fuel`) with `d ∣ 10 ^ k`, for printing an
exact decimal expansion. -/
def denExpAux : Nat → Nat → Nat → Option Nat
  | 0, _, _ => none
  | f + 1, d, k => if d ∣ 10 ^ k then some k else denExpAux f d (k + 1)

/-- JS number-to-string for a finite value.  Values reaching this point in
the source are JSON-decoded decimals, whose shortest double representation
is their decimal expansion; non-decimal rationals fall back to a digits
rendering (unreachable from decoded data). -/
def ratToJSString (q : ℚ) : String :=
  let sign := if q < 0 then "-" else ""
  let n := q.num.natAbs
  if q.den = 1 then sign ++ natToString n
  else
    match denExpAux 64 q.den 1 with
    | some k =>
      let scaled := n * (10 ^ k / q.den)
      let ip := scaled / 10 ^ k
      let fp := scaled % 10 ^ k
      let fracDigits := natToChars fp
      let padded := List.replicate (k - fracDigits.length) '0' ++ fracDigits
      sign ++ natToString ip ++ "." ++ padded.asString
    | none => sign ++ natToString n ++ "/" ++ natToString q.den

/-- JS string coercion of a scalar used as a property key (only truthy
values reach this in `groupBy`). -/
def jsValToKeyString : JSVal → String
  | .num (.fin q) => ratToJSString q
  | .num .posInf => "Infinity"
  | .num .negInf => "-Infinity"
  | .num .nan => "NaN"
  | .str s => s
  | .bool true => "true"
  | .bool false => "false"
  | .null => "null"

/-- group key of a record in `groupBy`: `item[key] || 'Unknown'` coerced to
a property key — any falsy value (absent, `null`, `false`, `0`, `NaN`,
empty string) collapses to `"Unknown"`. -/
def jsGroupKey (item : DataRecord) (key : String) : String :=
  match jsGet item key with
  | some v => if jsTruthy v then jsValToKeyString v else "Unknown"
  | none => "Unknown"

/-- append a record to its group, preserving first-appearance group order
(JS object property insertion order). -/
def groupAppend :
    List (String × List DataRecord) → String → DataRecord →
    List (String × List DataRecord)
  | [], g, item => [(g, [item])]
  | (k, items) :: rest, g, item =>
    if k = g then (k, items ++ [item]) :: rest
    else (k, items) :: groupAppend rest g item

/-- `groupBy` from `calculator.js` (a `reduce` building an object keyed by
`item[key] || 'Unknown'`). -/
def groupBy (data : List DataRecord) (key : String) :
    List (String × List DataRecord) :=
  data.foldl (fun groups item => groupAppend groups (jsGroupKey item key) item) []

/-- insertion of an element into a sorted list, after every element it may
follow (stable placement). -/
def sortedInsert (le : α → α → Bool) (a : α) : List α → List α
  | [] => [a]
  | b :: bs => if le b a then b :: sortedInsert le a bs else a :: b :: bs

/-- stable sort (JS `Array.prototype.sort` is specified stable; insertion
sort realises the same ordering). -/
def stableSort (le : α → α → Bool) (l : List α) : List α :=
  l.foldl (fun acc x => sortedInsert le x acc) []

/-- comparator coercion `(pt[pm] || 0)` of a chart point's sort field to a
number.  Chart points built by `prepareChartData` always carry a number
here; a comparator evaluating to `NaN` is treated as `±0` per ECMA-262
`SortCompare`, which the `NaN ↦ 0` collapse realises. -/
def sortNum (pm : String) (pt : DataRecord) : JSNum :=
  match jsGet pt pm with
  | some (.num x) => if x.isNaN then .fin 0 else x
  | some (.str s) => if s = "" then .fin 0 else
      (match jsToNumber s with | .nan => .fin 0 | v => v)
  | some (.bool b) => .fin (if b then 1 else 0)
  | some .null => .fin 0
  | none => .fin 0

/-- extended-order `≤` on comparator values (`NaN` never occurs as a
`sortNum` result; its rows are tied with everything, as `SortCompare`
mandates). -/
def sortKeyLe (x y : JSNum) : Bool :=
  match x, y with
  | .nan, _ => true
  | _, .nan => true
  | .negInf, _ => true
  | _, .posInf => true
  | .posInf, _ => false
  | _, .negInf => false
  | .fin a, .fin b => decide (a ≤ b)

/-- the chart sort relation `(b[pm] || 0) - (a[pm] || 0) ≤ 0`: `a` may
precede `b` exactly when `b`'s value is at most `a`'s (descending). -/
def chartLe (pm : String) (a b : DataRecord) : Bool :=
  sortKeyLe (sortNum pm b) (sortNum pm a)

/-- a chart definition as synthesized by the model (`measures` or
`dimensions` may be absent entirely). -/
structure ChartDefinition where
  title : String
  type : String
  measures : Option (List String)
  dimensions : Option (List String)

/-- `prepareChartData` from `calculator.js`: without both a measure and a
dimension, the first 20 records verbatim; otherwise group by the first
dimension, sum every measure per group, sort descending by the first
measure and keep the top 20 points. -/
def prepareChartData (data : List DataRecord) (chartDef : ChartDefinition) :
    List DataRecord :=
  match chartDef.measures, chartDef.dimensions with
  | some (pm :: ms), some (pd :: _) =>
    let grouped := groupBy data pd
    let chartData := grouped.map (fun g =>
      (pm :: ms).foldl
        (fun pt measure => jsSet pt measure (.num (calculateSum g.2 measure)))
        [(pd, .str g.1)])
    (stableSort (chartLe pm) chartData).take 20
  | _, _ => data.take 20

/-! ## aiService.js: token limits and text-budget reduction -/

/-- the process-wide token budget constants. -/
structure TokenLimits where
  maxInputTokens : Nat
  maxPromptTokens : Nat
  safeTextLimit : Nat
  chunkOverlap : Nat
  summaryTokens : Nat

/-- `TOKEN_LIMITS` from the enhanced `aiService`. -/
def TOKEN_LIMITS : TokenLimits :=
  { maxInputTokens := 8000
    maxPromptTokens := 1500
    safeTextLimit := 6000
    chunkOverlap := 200
    summaryTokens := 1000 }

/-- `estimateTokens`: `Math.ceil(text.length / 4)`. -/
def estimateTokens (text : String) : Nat :=
  (text.length + 3) / 4

/-- sentence-ending characters of the `[.!?]+` split. -/
def isSentenceEnd (c : Char) : Bool :=
  c = '.' || c = '!' || c = '?'

/-- split at maximal runs of sentence enders (JS `split(/[.!?]+/)`),
`fuel`-bounded by the input length. -/
def splitDelimAux : Nat → List Char → List Char → List (List Char)
  | 0, cur, _ => [cur.reverse]
  | _, cur, [] => [cur.reverse]
  | f + 1, cur, c :: cs =>
    if isSentenceEnd c then cur.reverse :: splitDelimAux f [] (cs.dropWhile isSentenceEnd)
    else splitDelimAux f (c :: cur) cs

/-- JS `text.split(/[.!?]+/)`. -/
def jsSplitSentences (text : String) : List String :=
  (splitDelimAux (text.length + 1) [] text.toList).map List.asString

/-- `chunkText` from the enhanced `aiService`: sentences are accumulated
into chunks of at most `maxChunkSize` characters. -/
def chunkText (text : String) (maxChunkSize : Nat) : List String :=
  let sentences := (jsSplitSentences text).filter (fun s => 0 < (jsTrimStr s).length)
  let step := sentences.foldl
    (fun acc sentence =>
      if maxChunkSize < (acc.2 ++ sentence).length ∧ 0 < acc.2.length
      then (acc.1 ++ [jsTrimStr acc.2], sentence)
      else (acc.1, acc.2 ++ sentence ++ ". "))
    (([] : List String), "")
  if 0 < (jsTrimStr step.2).length then step.1 ++ [jsTrimStr step.2] else step.1

/-- `extractNumericalContent`: keep the lines matching the numeric-pattern
battery (abstracted as `containsNumericalData`), trimmed, joined by
newlines. -/
def extractNumericalContent (containsNumericalData : String → Bool)
    (text : String) : String :=
  let lines := text.splitOn "\n"
  let numericalLines := (lines.filter containsNumericalData).map jsTrimStr
  String.intercalate "\n" numericalLines

/-- greedy accumulation loop of `selectBestChunks`: admit a chunk only when
the running token estimate stays within `safeTextLimit`; the first chunk
that does not fit stops the loop (`break`). -/
def selectBestChunksAux : List String → String → Nat → String × Nat
  | [], selected, total => (selected, total)
  | chunk :: rest, selected, total =>
    let chunkTokens := estimateTokens chunk
    if total + chunkTokens ≤ TOKEN_LIMITS.safeTextLimit
    then selectBestChunksAux rest (selected ++ chunk ++ "\n\n") (total + chunkTokens)
    else (selected, total)

/-- `selectBestChunks` from the enhanced `aiService`: chunk, score
(scorer abstracted), sort by descending score, then greedily accumulate. -/
def selectBestChunks (score : String → Nat) (text : String) : String :=
  let chunks := chunkText text 4000
  let scoredChunks := stableSort (fun a b => decide (score b ≤ score a)) chunks
  (selectBestChunksAux scoredChunks "" 0).1

/-- the reduction strategy that produced a `ReducedText` (the spec's
`TextBudgetReducer` strategy enumeration, matching the four code paths of
`preprocessLargeText`). -/
inductive ReduceStrategy where
  | asIs
  | numericFilter
  | aiSummarize
  | bestChunks
  deriving DecidableEq

/-- reduced text together with the code path that produced it. -/
structure ReducedText where
  content : String
  strategy : ReduceStrategy
  deriving DecidableEq

/-- the summarization prompt of `summarizePreservingData` (built from the
first 6000 characters of the numeric-filtered content). -/
def mkSummarizePrompt (text : String) : String :=
  "Summarize this text while preserving ALL numerical data, tables, charts, financial information, and statistics. Keep exact numbers, percentages, dates, and quantitative information intact.\n\nText to summarize:\n\"\"\"\n"
    ++ jsSubstringTo text 6000
    ++ "\n\"\"\"\n\nRequirements:\n- Preserve all numbers, percentages, financial data\n- Keep table structures and data relationships\n- Maintain dates and time periods\n- Remove only descriptive text and explanations\n- Output should be concise but data-complete\n\nProvide the summary in plain text format."

/-- `summarizePreservingData`: one gateway call (abstracted as `ai`; a
`none` result models any caught `callAI` failure), falling back to
`selectBestChunks` on the same text. -/
def summarizePreservingData (score : String → Nat) (ai : String → Option String)
    (text : String) : ReducedText :=
  match ai (mkSummarizePrompt text) with
  | some response => ⟨response, .aiSummarize⟩
  | none => ⟨selectBestChunks score text, .bestChunks⟩

/-- `preprocessLargeText` from the enhanced `aiService` (the spec's
`TextBudgetReducer.reduce`), annotated with the strategy of the code path
taken. -/
def preprocessLargeText (containsNumericalData : String → Bool)
    (score : String → Nat) (ai : String → Option String)
    (text : String) : ReducedText :=
  let tokenCount := estimateTokens text
  if tokenCount ≤ TOKEN_LIMITS.safeTextLimit then ⟨text, .asIs⟩
  else
    let numericalContent := extractNumericalContent containsNumericalData text
    if 0 < numericalContent.length ∧
        estimateTokens numericalContent ≤ TOKEN_LIMITS.safeTextLimit then
      ⟨numericalContent, .numericFilter⟩
    else if 0 < numericalContent.length then
      summarizePreservingData score ai numericalContent
    else
      ⟨selectBestChunks score text, .bestChunks⟩

/-! ## aiService.js: the model gateway `callAI` -/

/-- outcome of the single network exchange, as the `axios` call surfaces
it: a 2xx response with content, a non-2xx response (`error.response`), or
no response at all (`error.request`). -/
inductive NetResult where
  | ok (content : String)
  | rejected (status : Nat) (message : String)
  | noResponse

/-- substring test on character lists. -/
def containsTok (tok : List Char) : List Char → Bool
  | [] => tok.isEmpty
  | c :: cs => tok.isPrefixOf (c :: cs) || containsTok tok cs

/-- JS `String.prototype.includes`. -/
def containsSubstr (s sub : String) : Bool :=
  containsTok sub.toList s.toList

/-- `callAI` from the enhanced `aiService`, instrumented with the number of
network requests issued.  The oversized-prompt throw happens inside the
`try`, so the surfacing message is the generic rewrap of the local error;
the catch branches translate the three `axios` failure shapes. -/
def callAI (net : String → Nat → NetResult) (prompt : String) (maxTokens : Nat) :
    Except String String × Nat :=
  let promptTokens := estimateTokens prompt
  if TOKEN_LIMITS.maxInputTokens < promptTokens then
    (.error ("AI request failed: Prompt too large: " ++ natToString promptTokens
      ++ " tokens (max: " ++ natToString TOKEN_LIMITS.maxInputTokens ++ ")"), 0)
  else
    match net prompt maxTokens with
    | .ok content => (.ok content, 1)
    | .rejected status message =>
      if status = 400 && containsSubstr message "token" then
        (.error "Text too long for AI processing. Document contains too much content.", 1)
      else
        (.error ("AI API error: " ++ natToString status ++ " - " ++ message), 1)
    | .noResponse => (.error "Network error: Could not reach AI service", 1)

/-! ## JSON values (for the response decoder) -/

/-- opening brace character (0x7B). -/
def lbraceChar : Char := Char.ofNat 123

/-- closing brace character (0x7D). -/
def rbraceChar : Char := Char.ofNat 125

/- a JSON value as produced by `JSON.parse`.  Numbers are modelled as
integers: the payloads whose decoding the claims quantify over are
record/schema objects, and fractional literals play no role in the
properties proved here (the parser rejects them loudly rather than
approximating). -/
mutual
inductive JSON where
  | null
  | bool (b : Bool)
  | num (n : Int)
  | str (s : String)
  | arr (elements : JSONList)
  | obj (members : JSONMembers)
  deriving DecidableEq
inductive JSONList where
  | nil
  | cons (head : JSON) (tail : JSONList)
  deriving DecidableEq
inductive JSONMembers where
  | nil
  | cons (key : String) (value : JSON) (tail : JSONMembers)
  deriving DecidableEq
end

/-- length of a JSON array. -/
def JSONList.length : JSONList → Nat
  | .nil => 0
  | .cons _ t => t.length + 1

/-- hexadecimal digit characters (lower case, as `JSON.stringify` emits). -/
def hexDigitChar (n : Nat) : Char :=
  if n < 10 then digitChar n else Char.ofNat (87 + n)

/-- `JSON.stringify` escaping of one string character: quote, backslash,
the named controls, then `\u00XX` for other controls, else literal. -/
def escChar (c : Char) : List Char :=
  if c = '"' then ['\\', '"']
  else if c = '\\' then ['\\', '\\']
  else if c.toNat = 8 then ['\\', 'b']
  else if c.toNat = 9 then ['\\', 't']
  else if c.toNat = 10 then ['\\', 'n']
  else if c.toNat = 12 then ['\\', 'f']
  else if c.toNat = 13 then ['\\', 'r']
  else if c.toNat < 32 then
    ['\\', 'u', '0', '0', hexDigitChar (c.toNat / 16), hexDigitChar (c.toNat % 16)]
  else [c]

/-- escape a whole character list. -/
def escChars : List Char → List Char
  | [] => []
  | c :: cs => escChar c ++ escChars cs

/-- emit a JSON string literal. -/
def emitStr (s : String) : List Char :=
  '"' :: escChars s.toList ++ ['"']

/-- decimal rendering of an integer. -/
def intToChars (n : Int) : List Char :=
  if n < 0 then '-' :: natToChars n.natAbs else natToChars n.toNat

/- canonical serialization, `JSON.stringify` with no spacing. -/
mutual
def emitJSON : JSON → List Char
  | .null => "null".toList
  | .bool true => "true".toList
  | .bool false => "false".toList
  | .num n => intToChars n
  | .str s => emitStr s
  | .arr xs => '[' :: emitList xs ++ [']']
  | .obj ms => lbraceChar :: emitMembers ms ++ [rbraceChar]
def emitList : JSONList → List Char
  | .nil => []
  | .cons h .nil => emitJSON h
  | .cons h (.cons h2 t) => emitJSON h ++ ',' :: emitList (.cons h2 t)
def emitMembers : JSONMembers → List Char
  | .nil => []
  | .cons k v .nil => emitStr k ++ ':' :: emitJSON v
  | .cons k v (.cons k2 v2 t) =>
    emitStr k ++ ':' :: emitJSON v ++ ',' :: emitMembers (.cons k2 v2 t)
end

/-- `JSON.stringify` on a value. -/
def stringifyJSON (j : JSON) : String :=
  (emitJSON j).asString

/-! ## JSON parsing (`JSON.parse`) -/

/-- JSON insignificant whitespace (exactly space, tab, LF, CR). -/
def jsonWs (c : Char) : Bool :=
  c = ' ' || c = '\t' || c = '\n' || c = '\r'

/-- skip JSON whitespace. -/
def skipWs (cs : List Char) : List Char :=
  cs.dropWhile jsonWs

/-- value of a hexadecimal digit, `none` for other characters. -/
def hexVal (c : Char) : Option Nat :=
  if 48 ≤ c.toNat && c.toNat ≤ 57 then some (c.toNat - 48)
  else if 97 ≤ c.toNat && c.toNat ≤ 102 then some (c.toNat - 87)
  else if 65 ≤ c.toNat && c.toNat ≤ 70 then some (c.toNat - 55)
  else none

/-- the single-character escapes of JSON: the character standing after
the backslash, mapped to the character it denotes. -/
def escUnmap (e : Char) : Option Char :=
  if e = '"' then some '"'
  else if e = '\\' then some '\\'
  else if e = '/' then some '/'
  else if e = 'b' then some (Char.ofNat 8)
  else if e = 'f' then some (Char.ofNat 12)
  else if e = 'n' then some (Char.ofNat 10)
  else if e = 'r' then some (Char.ofNat 13)
  else if e = 't' then some (Char.ofNat 9)
  else none

/-- decode one escape sequence standing after a backslash: a
single-character escape or a `\u` followed by four hex digits. -/
def parseEsc (cs : List Char) : Option (Char × List Char) :=
  match cs with
  | [] => none
  | e :: r =>
    if e = 'u' then
      match r with
      | x1 :: x2 :: x3 :: x4 :: r2 =>
        (match hexVal x1, hexVal x2, hexVal x3, hexVal x4 with
         | some a, some b, some cv, some d =>
           some (Char.ofNat (((a * 16 + b) * 16 + cv) * 16 + d), r2)
         | _, _, _, _ => none)
      | _ => none
    else
      match escUnmap e with
      | some ch => some (ch, r)
      | none => none

/-- body of a JSON string literal after the opening quote: unescape until
the closing quote, rejecting raw control characters (`fuel`-bounded; any
fuel above the input length suffices). -/
def parseStrBody : Nat → List Char → Option (List Char × List Char)
  | 0, _ => none
  | _ + 1, [] => none
  | fuel + 1, c :: rest =>
    if c = '"' then some ([], rest)
    else if c = '\\' then
      (match parseEsc rest with
       | some (ch, r) => (parseStrBody fuel r).map (fun p => (ch :: p.1, p.2))
       | none => none)
    else if c.toNat < 32 then none
    else (parseStrBody fuel rest).map (fun p => (c :: p.1, p.2))

/-- boundary test after a number literal: JSON.parse would continue a
number through digits, a fraction, or an exponent, so the model requires
none of these to follow (`.`/`e`/`E` mark an unsupported fractional
literal and fail loudly; a digit cannot follow a complete literal). -/
def numBoundaryB (cs : List Char) : Bool :=
  match cs with
  | [] => true
  | c :: _ => !(isDigitChar c) && !(c = '.') && !(c = 'e') && !(c = 'E')

/-- an unsigned JSON number: `0`, or a nonzero digit run, stopping at a
number boundary. -/
def parseNatCore (cs : List Char) : Option (Nat × List Char) :=
  match cs with
  | [] => none
  | c :: rest =>
    if c = '0' then
      if numBoundaryB rest then some (0, rest) else none
    else if isDigitChar c then
      let ds := cs.takeWhile isDigitChar
      let r := cs.drop ds.length
      if numBoundaryB r then some (natOfDigits ds, r) else none
    else none

/-- a JSON number with optional leading minus. -/
def parseNumCore (cs : List Char) : Option (JSON × List Char) :=
  match cs with
  | '-' :: rest => (parseNatCore rest).map (fun p => (.num (-(p.1 : Int)), p.2))
  | _ => (parseNatCore cs).map (fun p => (.num (p.1 : Int), p.2))

/-- boundary after any emitted token: the next character (if any) neither
extends a digit run nor opens a fraction/exponent. -/
def tokenBoundaryB (cs : List Char) : Bool :=
  match cs with
  | [] => true
  | c :: _ => !(isDigitChar c) && numBoundaryB cs

/- recursive-descent `JSON.parse` core, `fuel`-bounded (any fuel above the
input length suffices, since every nesting level consumes a character). -/
mutual
def parseVal : Nat → List Char → Option (JSON × List Char)
  | 0, _ => none
  | fuel + 1, cs =>
    match skipWs cs with
    | [] => none
    | c :: rest =>
      if c = 'n' then
        (match rest with
         | 'u' :: 'l' :: 'l' :: r => some (.null, r)
         | _ => none)
      else if c = 't' then
        (match rest with
         | 'r' :: 'u' :: 'e' :: r => some (.bool true, r)
         | _ => none)
      else if c = 'f' then
        (match rest with
         | 'a' :: 'l' :: 's' :: 'e' :: r => some (.bool false, r)
         | _ => none)
      else if c = '"' then
        (parseStrBody fuel rest).map (fun p => (.str p.1.asString, p.2))
      else if c = '[' then
        (match skipWs rest with
         | [] => none
         | c2 :: r2 =>
           if c2 = ']' then some (.arr .nil, r2)
           else (parseElems fuel (c2 :: r2)).map (fun p => (.arr p.1, p.2)))
      else if c = lbraceChar then
        (match skipWs rest with
         | [] => none
         | c2 :: r2 =>
           if c2 = rbraceChar then some (.obj .nil, r2)
           else (parseMembers fuel (c2 :: r2)).map (fun p => (.obj p.1, p.2)))
      else parseNumCore (c :: rest)
def parseElems : Nat → List Char → Option (JSONList × List Char)
  | 0, _ => none
  | fuel + 1, cs =>
    match parseVal fuel cs with
    | some (j, r) =>
      (match skipWs r with
       | ',' :: r2 => (parseElems fuel r2).map (fun p => (.cons j p.1, p.2))
       | ']' :: r2 => some (.cons j .nil, r2)
       | _ => none)
    | none => none
def parseMembers : Nat → List Char → Option (JSONMembers × List Char)
  | 0, _ => none
  | fuel + 1, cs =>
    match cs with
    | '"' :: rest =>
      (match parseStrBody fuel rest with
       | some (key, r) =>
         (match skipWs r with
          | ':' :: r2 =>
            (match parseVal fuel r2 with
             | some (v, r3) =>
               (match skipWs r3 with
                | ',' :: r4 =>
                  (parseMembers fuel (skipWs r4)).map
                    (fun p => (.cons key.asString v p.1, p.2))
                | c4 :: r4 =>
                  if c4 = rbraceChar then some (.cons key.asString v .nil, r4)
                  else none
                | [] => none)
             | none => none)
          | _ => none)
       | none => none)
    | _ => none

end

/-- `JSON.parse` on a string: the whole input (modulo surrounding JSON
whitespace) must be one value. -/
def jsonParse (s : String) : Option JSON :=
  let cs := s.toList
  match parseVal (cs.length + 1) cs with
  | some (j, rest) => if skipWs rest = [] then some j else none
  | none => none

/-! ## aiService.js: `parseJSONResponse` -/

/-- one global-replace pass removing every occurrence of `tok` followed by
optional whitespace (JS `replace(/tok\s*/g, "")`); matches are found left
to right on the input, exactly as the regex engine does. -/
def stripTokWs (tok : List Char) : Nat → List Char → List Char
  | 0, cs => cs
  | _ + 1, [] => []
  | f + 1, c :: cs =>
    if tok.isPrefixOf (c :: cs) then
      stripTokWs tok f (((c :: cs).drop tok.length).dropWhile jsWhitespace)
    else c :: stripTokWs tok f cs

/-- index of the first occurrence of a character. -/
def indexOfChar (cs : List Char) (c : Char) : Option Nat :=
  cs.findIdx? (fun x => x = c)

/-- index of the last occurrence of a character. -/
def lastIndexOfChar (cs : List Char) (c : Char) : Option Nat :=
  match (cs.reverse).findIdx? (fun x => x = c) with
  | some i => some (cs.length - 1 - i)
  | none => none

/-- JS `String.prototype.substring(a, b)`: clamp both indices to the
length and swap them when out of order. -/
def jsSubstringChars (cs : List Char) (a b : Nat) : List Char :=
  let len := cs.length
  let a1 := min a len
  let b1 := min b len
  let lo := min a1 b1
  let hi := max a1 b1
  (cs.drop lo).take (hi - lo)

/-- `parseJSONResponse` from the enhanced `aiService`: trim, strip fenced
code-block markers, slice from the first opening to the last closing
brace when both exist, then `JSON.parse`; a parse failure surfaces as the
`Invalid JSON response` error. -/
def parseJSONResponse (response : String) : Except String JSON :=
  let clean0 := (jsTrimChars response.toList)
  let clean1 := stripTokWs ("```json".toList) (clean0.length + 1) clean0
  let clean2 := stripTokWs ("```".toList) (clean1.length + 1) clean1
  let sliced :=
    match indexOfChar clean2 lbraceChar, lastIndexOfChar clean2 rbraceChar with
    | some a, some b => jsSubstringChars clean2 a (b + 1)
    | _, _ => clean2
  match jsonParse sliced.asString with
  | some j => .ok j
  | none => .error "Invalid JSON response from AI: SyntaxError"

/-! ## aiService.js: structured-data extraction and validation -/

/-- JS property read on a decoded JSON value: objects look up the key
(later duplicates win, as in a JS object built by `JSON.parse`); other
non-null values have no such property (`undefined`). -/
def jsonGet (j : JSON) (key : String) : Option JSON :=
  match j with
  | .obj ms => memberLookup ms key
  | _ => none
where
  /-- last-wins member lookup. -/
  memberLookup : JSONMembers → String → Option JSON
    | .nil, _ => none
    | .cons k v t, key =>
      match memberLookup t key with
      | some w => some w
      | none => if k = key then some v else none

/-- failure of the structured-data extraction stage, by cause.  The source
distinguishes these by message (all wrapped in the stage prefix); the
constructors mirror that taxonomy. -/
inductive ExtractError where
  | gateway (message : String)
  | decode (message : String)
  | insufficientData
  | nullAccess
  deriving DecidableEq

/-- the user-facing message of each extraction failure, as built by the
source's catch-and-rewrap (`Failed to extract structured data: ...`). -/
def extractErrorMessage : ExtractError → String
  | .gateway m => "Failed to extract structured data: " ++ m
  | .decode m => "Failed to extract structured data: " ++ m
  | .insufficientData =>
    "Failed to extract structured data: Insufficient data extracted for dashboard creation"
  | .nullAccess =>
    "Failed to extract structured data: Cannot read properties of null"

/-- validation of the decoded payload: `!result.data ||
!Array.isArray(result.data) || result.data.length < minRecords` throws the
insufficient-data error (the falsy check and the array check both funnel
every non-array value there); reading `.data` off a decoded `null` is the
JS TypeError. -/
def validateExtractionData (minRecords : Nat) (result : JSON) :
    Except ExtractError JSON :=
  match result with
  | .null => .error .nullAccess
  | _ =>
    match jsonGet result "data" with
    | some (.arr xs) =>
      if xs.length < minRecords then .error .insufficientData else .ok result
    | _ => .error .insufficientData

/-- shared core of the two structured-data extractors: translate a gateway
failure, decode, validate.  The prompt construction and the gateway
exchange are abstracted into the `aiResult` argument. -/
def extractStructuredDataCore (minRecords : Nat)
    (aiResult : Except String String) : Except ExtractError JSON :=
  match aiResult with
  | .error message => .error (.gateway message)
  | .ok response =>
    match parseJSONResponse response with
    | .error message => .error (.decode message)
    | .ok result => validateExtractionData minRecords result

/-- `extractStructuredDataWithChunking` (enhanced variant, minimum 2). -/
def extractStructuredDataWithChunking (aiResult : Except String String) :
    Except ExtractError JSON :=
  extractStructuredDataCore 2 aiResult

/-- `extractStructuredData` (plain variant, minimum 3). -/
def extractStructuredData (aiResult : Except String String) :
    Except ExtractError JSON :=
  extractStructuredDataCore 3 aiResult

deriving instance DecidableEq for Except

/-! ## Specification-side definitions (for statements relating the code to
the spec'\x73 wording) -/

/-- the column values of a record list that parse to a number (`NaN`
excluded), in record order. -/
def parseableValues (data : List DataRecord) (column : String) : List JSNum :=
  (data.map (fun row => jsParseFloat (jsGet row column))).filter (fun v => !v.isNaN)

/-- JS summation of a list of numbers from `0`. -/
def jsNumSum (l : List JSNum) : JSNum :=
  l.foldl jsAdd (.fin 0)

/-- the member list of a grouping keyed `k` (empty when the key is absent),
the spec-side reading of the `groupBy` object. -/
def groupsGet (gs : List (String × List DataRecord)) (k : String) :
    List DataRecord :=
  match gs with
  | [] => []
  | (g, items) :: rest => if g = k then items else groupsGet rest k

/-! ## Helper lemmas -/

/-- an admitted chunk never pushes the running estimate past the budget:
the loop total stays within `safeTextLimit` whenever it starts within. -/
theorem selectBestChunksAux_total_le (chunks : List String) :
    ∀ sel total, total ≤ TOKEN_LIMITS.safeTextLimit →
      (selectBestChunksAux chunks sel total).2 ≤ TOKEN_LIMITS.safeTextLimit := by
  induction chunks with
  | nil => intro sel total h; simpa [selectBestChunksAux] using h
  | cons c rest ih =>
    intro sel total h
    simp only [selectBestChunksAux]
    split
    · exact ih _ _ (by assumption)
    · simpa using h

/-- the final content of `summarizePreservingData` is produced by the
AI-summarize path or the best-chunk fallback, never anything else. -/
theorem summarizePreservingData_strategy (score : String → Nat)
    (ai : String → Option String) (text : String) :
    (summarizePreservingData score ai text).strategy = .aiSummarize ∨
      (summarizePreservingData score ai text).strategy = .bestChunks := by
  unfold summarizePreservingData
  cases ai (mkSummarizePrompt text) <;> simp

/-- length of a replicated-character string (kept generic so instances at
large counts never force kernel evaluation of the list). -/
theorem length_mk_replicate (n : Nat) (c : Char) :
    (String.mk (List.replicate n c)).length = n := by
  show (List.replicate n c).length = n
  exact List.length_replicate n c

/-- a 24000-character text sits exactly at the inclusive budget boundary. -/
theorem estimateTokens_boundary (s : String) (h : s.length = 24000) :
    estimateTokens s ≤ TOKEN_LIMITS.safeTextLimit := by
  unfold estimateTokens
  rw [h]
  decide

/-- a 40000-character prompt estimates to 10000 tokens, over the input cap. -/
theorem estimateTokens_oversized (s : String) (h : s.length = 40000) :
    TOKEN_LIMITS.maxInputTokens < estimateTokens s := by
  unfold estimateTokens
  rw [h]
  decide

/-! ## C1: budget of the text reducer -/

/-- C1.  For every input text (and any line filter, chunk scorer, and AI
behaviour), the reducer either returns content whose token estimate
(`ceil(length/4)`) is at most `safeTextLimit = 6000`, or it took one of
the two residual-overflow paths (`aiSummarize`/`bestChunks`); moreover the
best-chunk greedy accumulation keeps the running token estimate within
`safeTextLimit` from any in-budget starting total (in particular from its
actual start, `0`). -/
theorem C1_reducer_budget (keep : String → Bool) (score : String → Nat)
    (ai : String → Option String) (text : String) :
    ((preprocessLargeText keep score ai text).strategy = .aiSummarize ∨
     (preprocessLargeText keep score ai text).strategy = .bestChunks ∨
     estimateTokens (preprocessLargeText keep score ai text).content ≤
       TOKEN_LIMITS.safeTextLimit) ∧
    (∀ chunks sel total, total ≤ TOKEN_LIMITS.safeTextLimit →
      (selectBestChunksAux chunks sel total).2 ≤ TOKEN_LIMITS.safeTextLimit) := by
  refine ⟨?_, fun chunks sel total h => selectBestChunksAux_total_le chunks sel total h⟩
  by_cases h1 : estimateTokens text ≤ TOKEN_LIMITS.safeTextLimit
  · right; right
    simp only [preprocessLargeText, if_pos h1]
    exact h1
  · by_cases h2 : 0 < (extractNumericalContent keep text).length ∧
        estimateTokens (extractNumericalContent keep text) ≤ TOKEN_LIMITS.safeTextLimit
    · right; right
      simp only [preprocessLargeText, if_neg h1, if_pos h2]
      exact h2.2
    · by_cases h3 : 0 < (extractNumericalContent keep text).length
      · have hs := summarizePreservingData_strategy score ai
          (extractNumericalContent keep text)
        simp only [preprocessLargeText, if_neg h1, if_neg h2, if_pos h3]
        rcases hs with h | h
        · left; exact h
        · right; left; exact h
      · right; left
        simp [preprocessLargeText, h1, h2, h3]

/-- C1 witness: at a concrete oversized all-x text (with a trivial filter
keeping no line and a failing AI), the reducer lands in a residual path
and the greedy loop respects the budget from `0`. -/
theorem C1_reducer_budget_witness :
    ((preprocessLargeText (fun _ => false) (fun _ => 0) (fun _ => none)
        (String.mk (List.replicate 30000 'x'))).strategy = .aiSummarize ∨
     (preprocessLargeText (fun _ => false) (fun _ => 0) (fun _ => none)
        (String.mk (List.replicate 30000 'x'))).strategy = .bestChunks ∨
     estimateTokens (preprocessLargeText (fun _ => false) (fun _ => 0) (fun _ => none)
        (String.mk (List.replicate 30000 'x'))).content ≤
       TOKEN_LIMITS.safeTextLimit) ∧
    (selectBestChunksAux ["chunk one", "chunk two"] "" 0).2 ≤
      TOKEN_LIMITS.safeTextLimit :=
  ⟨(C1_reducer_budget (fun _ => false) (fun _ => 0) (fun _ => none)
      (String.mk (List.replicate 30000 'x'))).1,
   (C1_reducer_budget (fun _ => false) (fun _ => 0) (fun _ => none)
      (String.mk (List.replicate 30000 'x'))).2
      ["chunk one", "chunk two"] "" 0 (by decide)⟩

/-! ## C2: the as-is fast path -/

/-- C2.  Any text whose token estimate is at most `safeTextLimit` —
boundary inclusive, the empty text in particular — is returned unchanged
with the `asIs` strategy, before any filtering, summarization, or chunk
selection can run (for every line filter, scorer, and AI behaviour). -/
theorem C2_as_is (keep : String → Bool) (score : String → Nat)
    (ai : String → Option String) (text : String)
    (h : estimateTokens text ≤ TOKEN_LIMITS.safeTextLimit) :
    preprocessLargeText keep score ai text = ⟨text, .asIs⟩ := by
  unfold preprocessLargeText
  simp [h]

/-- C2 witness: the empty text and a boundary-size text (estimate exactly
6000) are both returned untouched. -/
theorem C2_as_is_witness :
    preprocessLargeText (fun _ => true) (fun _ => 1) (fun _ => some "s") "" =
      ⟨"", .asIs⟩ ∧
    preprocessLargeText (fun _ => true) (fun _ => 1) (fun _ => some "s")
        (String.mk (List.replicate 24000 'x')) =
      ⟨String.mk (List.replicate 24000 'x'), .asIs⟩ :=
  ⟨C2_as_is _ _ _ _ (by decide),
   C2_as_is _ _ _ _ (estimateTokens_boundary _ (length_mk_replicate 24000 'x'))⟩

/-! ## C3: the gateway prompt-size guard -/

/-- C3.  An oversized prompt (estimate strictly above
`maxInputTokens = 8000`) fails with the prompt-too-large error and zero
network requests; a prompt within the limit issues exactly one request,
whatever the network outcome. -/
theorem C3_gateway_guard (net : String → Nat → NetResult) (prompt : String)
    (maxTokens : Nat) :
    natToString TOKEN_LIMITS.maxInputTokens = "8000" ∧
    (TOKEN_LIMITS.maxInputTokens < estimateTokens prompt →
      callAI net prompt maxTokens =
        (.error ("AI request failed: Prompt too large: "
          ++ natToString (estimateTokens prompt) ++ " tokens (max: "
          ++ natToString TOKEN_LIMITS.maxInputTokens ++ ")"), 0)) ∧
    (estimateTokens prompt ≤ TOKEN_LIMITS.maxInputTokens →
      (callAI net prompt maxTokens).2 = 1) := by
  refine ⟨by decide, ?_, ?_⟩
  · intro h
    unfold callAI
    rw [if_pos h]
  · intro h
    unfold callAI
    rw [if_neg (by omega)]
    cases net prompt maxTokens with
    | ok c => rfl
    | rejected s m =>
      simp only []
      split <;> rfl
    | noResponse => rfl

/-- C3 witness: a 40000-character prompt (10000 tokens) fails without any
request; a short prompt issues exactly one. -/
theorem C3_gateway_guard_witness :
    callAI (fun _ _ => .ok "hi") (String.mk (List.replicate 40000 'p')) 100 =
      (.error ("AI request failed: Prompt too large: "
        ++ natToString (estimateTokens (String.mk (List.replicate 40000 'p')))
        ++ " tokens (max: " ++ natToString TOKEN_LIMITS.maxInputTokens ++ ")"), 0) ∧
    (callAI (fun _ _ => .noResponse) "short prompt" 100).2 = 1 :=
  ⟨(C3_gateway_guard (fun _ _ => .ok "hi") (String.mk (List.replicate 40000 'p')) 100).2.1
      (estimateTokens_oversized _ (length_mk_replicate 40000 'p')),
   (C3_gateway_guard (fun _ _ => .noResponse) "short prompt" 100).2.2 (by decide)⟩

/-! ## C4: KPI sum and average coercion -/

/-- adding a literal zero is the identity in every non-`NaN` case and
preserves `NaN`. -/
theorem jsAdd_fin_zero (x : JSNum) : jsAdd x (.fin 0) = x := by
  cases x <;> simp [jsAdd]

/-- the sum fold ignores unparseable values: folding with the
`NaN ↦ 0` substitution equals folding over the parseable values only. -/
theorem calculateSum_foldl_eq (column : String) (data : List DataRecord) :
    ∀ acc : JSNum,
      data.foldl
        (fun sum row =>
          let val := jsParseFloat (jsGet row column)
          jsAdd sum (if val.isNaN then .fin 0 else val)) acc =
      (parseableValues data column).foldl jsAdd acc := by
  induction data with
  | nil => intro acc; rfl
  | cons r rs ih =>
    intro acc
    have hPV : parseableValues (r :: rs) column =
        (if (jsParseFloat (jsGet r column)).isNaN then parseableValues rs column
         else jsParseFloat (jsGet r column) :: parseableValues rs column) := by
      simp only [parseableValues, List.map_cons, List.filter_cons]
      by_cases h : (jsParseFloat (jsGet r column)).isNaN <;> simp [h]
    by_cases h : (jsParseFloat (jsGet r column)).isNaN
    · rw [List.foldl_cons, hPV, if_pos h]
      simp only [h, if_true, jsAdd_fin_zero]
      exact ih acc
    · rw [List.foldl_cons, hPV, if_neg h, List.foldl_cons]
      simp only [h, if_false, Bool.false_eq_true]
      exact ih _

/-- the parseable-count filter of `calculateAverage` counts exactly the
parseable values. -/
theorem parseable_count_eq (column : String) (data : List DataRecord) :
    (data.filter (fun row => !(jsParseFloat (jsGet row column)).isNaN)).length =
      (parseableValues data column).length := by
  induction data with
  | nil => rfl
  | cons r rs ih =>
    cases h : (jsParseFloat (jsGet r column)).isNaN with
    | true =>
      simp only [parseableValues, List.map_cons, List.filter_cons, h,
        Bool.not_true, Bool.false_eq_true, if_false]
      simpa [parseableValues] using ih
    | false =>
      simp only [parseableValues, List.map_cons, List.filter_cons, h,
        Bool.not_false, if_true, List.length_cons]
      simp only [parseableValues] at ih
      omega

/-- C4.  The KPI sum coerces each column value with `parseFloat` and lets
unparseable values contribute nothing — it equals the plain sum of the
parseable values — while the average divides that sum by the number of
parseable values only (`0` when there are none); on the records
`[{revenue:"100"}, {revenue:"abc"}, {revenue:200}]` the sum is `300` and
the average is `150`. -/
theorem C4_kpi_sum_avg_coercion :
    (∀ (data : List DataRecord) (column : String),
      calculateSum data column = jsNumSum (parseableValues data column)) ∧
    (∀ (data : List DataRecord) (column : String),
      (parseableValues data column).length = 0 →
        calculateAverage data column = .fin 0) ∧
    (∀ (data : List DataRecord) (column : String),
      0 < (parseableValues data column).length →
        calculateAverage data column =
          jsDivNat (calculateSum data column) (parseableValues data column).length) ∧
    calculateSum [[("revenue", JSVal.str "100")], [("revenue", JSVal.str "abc")],
      [("revenue", JSVal.num (.fin 200))]] "revenue" = .fin 300 ∧
    calculateAverage [[("revenue", JSVal.str "100")], [("revenue", JSVal.str "abc")],
      [("revenue", JSVal.num (.fin 200))]] "revenue" = .fin 150 := by
  refine ⟨?_, ?_, ?_, ?_, ?_⟩
  · intro data column
    exact calculateSum_foldl_eq column data (.fin 0)
  · intro data column h
    unfold calculateAverage
    rw [if_neg]
    rw [parseable_count_eq, h]
    omega
  · intro data column h
    unfold calculateAverage
    rw [parseable_count_eq]
    rw [if_pos h]
  · simp [calculateSum, jsGet, jsParseFloat, jsAdd, parseFloatStr, floatCore, jsWhitespace,
      isDigitChar, natOfDigits, digitVal, floatCore.floatExp, JSNum.isNaN]
    norm_num
  · simp [calculateAverage, calculateSum, jsGet, jsParseFloat, jsAdd, jsDivNat, parseFloatStr,
      floatCore, jsWhitespace, isDigitChar, natOfDigits, digitVal, floatCore.floatExp,
      JSNum.isNaN]
    norm_num

/-- C4 witness: the average hypotheses discharged at the example records
(two parseable values) and at the empty list. -/
theorem C4_kpi_sum_avg_coercion_witness :
    calculateAverage [[("revenue", JSVal.str "100")], [("revenue", JSVal.str "abc")],
        [("revenue", JSVal.num (.fin 200))]] "revenue" =
      jsDivNat
        (calculateSum [[("revenue", JSVal.str "100")], [("revenue", JSVal.str "abc")],
          [("revenue", JSVal.num (.fin 200))]] "revenue")
        (parseableValues [[("revenue", JSVal.str "100")], [("revenue", JSVal.str "abc")],
          [("revenue", JSVal.num (.fin 200))]] "revenue").length ∧
    calculateAverage [] "revenue" = .fin 0 :=
  ⟨C4_kpi_sum_avg_coercion.2.2.1 _ "revenue" (by decide),
   C4_kpi_sum_avg_coercion.2.1 [] "revenue" (by decide)⟩

/-! ## C10: KPI totality on the empty record list (corrected) -/

/-- evaluation of the four `formatValue` outputs at `0`. -/
theorem formatValue_zero_eval :
    formatValue (.fin 0) (some "number") = "0" ∧
    formatValue (.fin 0) none = "0" ∧
    formatValue (.fin 0) (some "currency") = "$0" ∧
    formatValue (.fin 0) (some "percent") = "0.0%" := by
  have h3 : (⌊(0 : ℚ) * 1000 + 1 / 2⌋ : ℤ) = 0 := by norm_num
  have h4 : (⌊(0 : ℚ) + 1 / 2⌋ : ℤ) = 0 := by norm_num
  have h5 : (⌊(0 : ℚ) * 10 + 1 / 2⌋ : ℤ) = 0 := by norm_num
  refine ⟨?_, ?_, ?_, ?_⟩
  · simp only [formatValue, toLowerStr, lowerChar]
    norm_num [jsToLocaleStringEnUS, h3]
    decide
  · simp only [formatValue]
    norm_num [jsToLocaleStringEnUS, h3]
    decide
  · simp only [formatValue, toLowerStr, lowerChar]
    norm_num [intlCurrencyUSD0, h4]
    decide
  · simp only [formatValue, toLowerStr, lowerChar]
    norm_num [intlPercent1, h5]
    decide

/-- C10 counterexample: on the empty record list, a `sum` KPI with the
`currency` format has formatted value `"$0"`, not `"0"` — so "the
formatted value is \x220\x22" fails as stated for non-default formats. -/
theorem C10_empty_formatted_counterexample :
    (calculateSingleKPI [] ⟨"Total Revenue", "sum", "revenue", some "currency"⟩).map
      ComputedKPI.formattedValue = some "$0" ∧
    ("$0" : String) ≠ "0" := by
  constructor
  · have h := formatValue_zero_eval.2.2.1
    simp [calculateSingleKPI, show toLowerStr "sum" = "sum" from by decide,
      calculateSum, h]
  · decide

/-- C10 (amended).  On the empty record list every recognised KPI
calculation is total and yields the numeric value `0` — sum `0`, average
`0` (the division is guarded, never `0/0`), max and min `0` rather than
infinities, count `0` — and the formatted value is `formatValue 0`
applied to the definition'\x73 format: `"0"` for the default numeric
format, `"$0"` for `currency`, `"0.0%"` for `percent`. -/
theorem C10_empty_kpis_total (name column : String) (format : Option String)
    (calcName : String)
    (hcalc : calcName = "sum" ∨ calcName = "avg" ∨ calcName = "average" ∨
      calcName = "count" ∨ calcName = "max" ∨ calcName = "min") :
    calculateSingleKPI [] ⟨name, calcName, column, format⟩ =
      some ⟨name, .fin 0, formatValue (.fin 0) format, calcName, column, format⟩ ∧
    formatValue (.fin 0) (some "number") = "0" ∧
    formatValue (.fin 0) none = "0" ∧
    formatValue (.fin 0) (some "currency") = "$0" ∧
    formatValue (.fin 0) (some "percent") = "0.0%" := by
  refine ⟨?_, formatValue_zero_eval.1, formatValue_zero_eval.2.1,
    formatValue_zero_eval.2.2.1, formatValue_zero_eval.2.2.2⟩
  rcases hcalc with rfl | rfl | rfl | rfl | rfl | rfl
  · simp [calculateSingleKPI, show toLowerStr "sum" = "sum" from by decide,
      calculateSum]
  · simp [calculateSingleKPI, show toLowerStr "avg" = "avg" from by decide,
      calculateAverage]
  · simp [calculateSingleKPI, show toLowerStr "average" = "average" from by decide,
      calculateAverage]
  · simp [calculateSingleKPI, show toLowerStr "count" = "count" from by decide]
  · simp [calculateSingleKPI, show toLowerStr "max" = "max" from by decide,
      calculateMax]
  · simp [calculateSingleKPI, show toLowerStr "min" = "min" from by decide,
      calculateMin]

/-- C10 witness: the amended statement applied at the `sum` calculation
with the `currency` format. -/
theorem C10_empty_kpis_total_witness :
    calculateSingleKPI [] ⟨"Total Revenue", "sum", "revenue", some "currency"⟩ =
      some ⟨"Total Revenue", .fin 0, formatValue (.fin 0) (some "currency"), "sum",
        "revenue", some "currency"⟩ ∧
    formatValue (.fin 0) (some "currency") = "$0" :=
  ⟨(C10_empty_kpis_total "Total Revenue" "revenue" (some "currency") "sum"
      (Or.inl rfl)).1,
   (C10_empty_kpis_total "Total Revenue" "revenue" (some "currency") "sum"
      (Or.inl rfl)).2.2.2.1⟩

/-! ## C6: value formatting -/

/-- digit-count bound for the decimal rendering. -/
theorem natToCharsAux_length_le :
    ∀ (f n k : Nat), n < 10 ^ k → (natToCharsAux f n).length ≤ k := by
  intro f
  induction f with
  | zero => intro n k _; simp [natToCharsAux]
  | succ f ih =>
    intro n k h
    simp only [natToCharsAux]
    split
    · simp
    · rename_i hn
      match k with
      | 0 => omega
      | k + 1 =>
        simp only [List.length_cons]
        have hd : n / 10 < 10 ^ k := by
          rw [Nat.div_lt_iff_lt_mul (by norm_num)]
          calc n < 10 ^ (k + 1) := h
          _ = 10 ^ k * 10 := by rw [Nat.pow_succ]
        have := ih (n / 10) k hd
        omega

/-- a number below 1000 renders in at most three digits. -/
theorem natToChars_length_le_three (n : Nat) (h : n < 1000) :
    (natToChars n).length ≤ 3 := by
  unfold natToChars
  split
  · simp
  · rw [List.length_reverse]
    exact natToCharsAux_length_le (n + 1) n 3 (by simpa using h)

/-- the comma pass is the identity on at most three digits (counter
included). -/
theorem commaGroupAux_short :
    ∀ (ds : List Char) (c : Nat), c + ds.length ≤ 3 → commaGroupAux c ds = ds := by
  intro ds
  induction ds with
  | nil => intro c _; rfl
  | cons d rest ih =>
    intro c h
    simp only [List.length_cons] at h
    simp only [commaGroupAux, if_neg (by omega : ¬ c = 3)]
    rw [ih (c + 1) (by omega)]

/-- grouping does nothing below 1000. -/
theorem natGroupedString_small (n : Nat) (h : n < 1000) :
    natGroupedString n = natToString n := by
  unfold natGroupedString natToString
  rw [commaGroupAux_short _ 0 (by simpa using natToChars_length_le_three n h),
    List.reverse_reverse]

/-- the `en-US` one-fraction-digit percent rendering coincides with
`toFixed(1)` plus a percent sign while the integer part needs no
grouping. -/
theorem intlPercent1_eq_toFixed (q : ℚ) (h0 : 0 ≤ q) (hq : q < 999) :
    intlPercent1 q = jsToFixed1 q ++ "%" := by
  have hneg : ¬ q < 0 := not_lt.mpr h0
  have hfl : (⌊q * 10 + 1 / 2⌋ : ℤ) < 10000 := by
    rw [Int.floor_lt]
    push_cast
    linarith
  have hn : (⌊q * 10 + 1 / 2⌋ : ℤ).toNat / 10 < 1000 := by omega
  unfold intlPercent1 jsToFixed1 jsToFixed1Nonneg
  simp only [if_neg hneg]
  rw [natGroupedString_small _ hn]
  simp [String.append_assoc]

/-- C6.  `formatValue`: `NaN` and non-finite values format as `"0"` for
every format; the default numeric format abbreviates values at least one
million as `value/1000000` with one decimal plus `"M"`, values at least a
thousand as `value/1000` with one decimal plus `"K"`, and renders the
rest as the locale-grouped string; the percent format divides by 100 and
(re-scaled by the percent style) renders the value to one decimal place
with a percent sign; `1500000 ↦ "1.5M"`, `2500 ↦ "2.5K"`. -/
theorem C6_formatValue_formats :
    (∀ format, formatValue .nan format = "0") ∧
    (∀ format, formatValue .posInf format = "0") ∧
    (∀ format, formatValue .negInf format = "0") ∧
    (∀ q : ℚ, (1000000 : ℚ) ≤ q →
      formatValue (.fin q) (some "number") = jsToFixed1 (q / 1000000) ++ "M") ∧
    (∀ q : ℚ, ¬ (1000000 : ℚ) ≤ q → (1000 : ℚ) ≤ q →
      formatValue (.fin q) (some "number") = jsToFixed1 (q / 1000) ++ "K") ∧
    (∀ q : ℚ, ¬ (1000000 : ℚ) ≤ q → ¬ (1000 : ℚ) ≤ q →
      formatValue (.fin q) (some "number") = jsToLocaleStringEnUS q) ∧
    (∀ q : ℚ, 0 ≤ q → q < 999 →
      formatValue (.fin q) (some "percent") = jsToFixed1 q ++ "%") ∧
    formatValue (.fin 1500000) (some "number") = "1.5M" ∧
    formatValue (.fin 2500) (some "number") = "2.5K" ∧
    formatValue (.fin 999) (some "number") = "999" ∧
    formatValue (.fin (617 / 50)) (some "percent") = "12.3%" := by
  have hnum : toLowerStr "number" = "number" := by decide
  have hpct : toLowerStr "percent" = "percent" := by decide
  refine ⟨fun _ => rfl, fun _ => rfl, fun _ => rfl, ?_, ?_, ?_, ?_, ?_, ?_, ?_, ?_⟩
  · intro q h
    simp only [formatValue, Option.map_some', hnum]
    rw [if_pos h]
    rfl
  · intro q h1 h2
    simp only [formatValue, Option.map_some', hnum]
    rw [if_neg h1, if_pos h2]
    rfl
  · intro q h1 h2
    simp only [formatValue, Option.map_some', hnum]
    rw [if_neg h1, if_neg h2]
    rfl
  · intro q h0 h999
    simp only [formatValue, Option.map_some', hpct]
    have := intlPercent1_eq_toFixed q h0 h999
    rw [← this]
  · have h3 : (⌊(1500000 : ℚ) / 1000000 * 10 + 1 / 2⌋ : ℤ) = 15 := by norm_num
    have h4 : ¬ ((1500000 : ℚ) / 1000000 < 0) := by norm_num
    have h1 : ((1000000 : ℚ) ≤ 1500000) := by norm_num
    simp only [formatValue, Option.map_some', hnum]
    norm_num [jsToFixed1, jsToFixed1Nonneg, h3, h4]
    decide
  · have h1 : ¬ ((1000000 : ℚ) ≤ 2500) := by norm_num
    have h3 : (⌊(2500 : ℚ) / 1000 * 10 + 1 / 2⌋ : ℤ) = 25 := by norm_num
    have h4 : ¬ ((2500 : ℚ) / 1000 < 0) := by norm_num
    simp only [formatValue, Option.map_some', hnum]
    norm_num [jsToFixed1, jsToFixed1Nonneg, h1, h3, h4]
    decide
  · have h1 : ¬ ((1000000 : ℚ) ≤ 999) := by norm_num
    have h2 : ¬ ((1000 : ℚ) ≤ 999) := by norm_num
    have h3 : (⌊(999 : ℚ) * 1000 + 1 / 2⌋ : ℤ) = 999000 := by norm_num
    simp only [formatValue, Option.map_some', hnum]
    norm_num [jsToLocaleStringEnUS, h1, h2, h3]
    decide
  · have h3 : (⌊(617 / 50 : ℚ) * 10 + 1 / 2⌋ : ℤ) = 123 := by norm_num
    have h4 : ¬ ((617 / 50 : ℚ) < 0) := by norm_num
    simp only [formatValue, Option.map_some', hpct]
    norm_num [intlPercent1, h3, h4]
    decide

/-- C6 witness: the abbreviation branches applied at `1500000`, `2500`,
`999`, and the percent branch at `45`. -/
theorem C6_formatValue_formats_witness :
    formatValue (.fin 1500000) (some "number") =
      jsToFixed1 ((1500000 : ℚ) / 1000000) ++ "M" ∧
    formatValue (.fin 2500) (some "number") = jsToFixed1 ((2500 : ℚ) / 1000) ++ "K" ∧
    formatValue (.fin 999) (some "number") = jsToLocaleStringEnUS 999 ∧
    formatValue (.fin 45) (some "percent") = jsToFixed1 (45 : ℚ) ++ "%" :=
  ⟨C6_formatValue_formats.2.2.2.1 1500000 (by decide),
   C6_formatValue_formats.2.2.2.2.1 2500 (by decide) (by decide),
   C6_formatValue_formats.2.2.2.2.2.1 999 (by decide) (by decide),
   C6_formatValue_formats.2.2.2.2.2.2.1 45 (by decide) (by decide)⟩

/-! ## C9: falsy dimension values collapse into the "Unknown" group -/

/-- appending a record to its group changes exactly that group. -/
theorem groupsGet_groupAppend (gs : List (String × List DataRecord)) (g : String)
    (item : DataRecord) (k : String) :
    groupsGet (groupAppend gs g item) k =
      if g = k then groupsGet gs k ++ [item] else groupsGet gs k := by
  induction gs with
  | nil =>
    by_cases h : g = k <;> simp [groupAppend, groupsGet, h]
  | cons p rest ih =>
    obtain ⟨k', items⟩ := p
    by_cases h1 : k' = g
    · subst h1
      by_cases h2 : k' = k <;> simp [groupAppend, groupsGet, h2]
    · by_cases h2 : k' = k
      · subst h2
        have hg : ¬ g = k' := fun hgk => h1 hgk.symm
        simp [groupAppend, groupsGet, h1, hg, ih]
      · simp [groupAppend, groupsGet, h1, h2, ih]

/-- the group keyed `k` collects exactly the records whose group key is
`k`, in record order (generalised over the accumulator). -/
theorem groupsGet_foldl (key : String) :
    ∀ (data : List DataRecord) (gs : List (String × List DataRecord)) (k : String),
      groupsGet
        (data.foldl (fun groups item => groupAppend groups (jsGroupKey item key) item) gs)
        k =
      groupsGet gs k ++ data.filter (fun r => jsGroupKey r key == k) := by
  intro data
  induction data with
  | nil => intro gs k; simp
  | cons r rs ih =>
    intro gs k
    rw [List.foldl_cons, ih, groupsGet_groupAppend, List.filter_cons]
    by_cases h : jsGroupKey r key = k
    · simp [h]
    · simp [h]

/-- `groupBy` sends each record to the group of its key. -/
theorem groupBy_filter (data : List DataRecord) (key k : String) :
    groupsGet (groupBy data key) k =
      data.filter (fun r => jsGroupKey r key == k) := by
  unfold groupBy
  rw [groupsGet_foldl key data [] k]
  rfl

/-- C9.  Every falsy dimension value — absent, `null`, the empty string,
the number `0`, `NaN`, `false` — yields the group key `"Unknown"`, so the
`"Unknown"` group collects exactly the records with falsy dimension
values, and distinct falsy values merge into one data point: on records
with dimensions `""` and `0`, chart preparation produces a single
`"Unknown"` point summing both. -/
theorem C9_falsy_merges_to_unknown :
    (∀ (v : JSVal), jsTruthy v = false → ∀ (item : DataRecord) (key : String),
      jsGet item key = some v → jsGroupKey item key = "Unknown") ∧
    (∀ (item : DataRecord) (key : String), jsGet item key = none →
      jsGroupKey item key = "Unknown") ∧
    (jsTruthy .null = false ∧ jsTruthy (.str "") = false ∧
     jsTruthy (.num (.fin 0)) = false ∧ jsTruthy (.num .nan) = false ∧
     jsTruthy (.bool false) = false) ∧
    (∀ (data : List DataRecord) (key : String),
      groupsGet (groupBy data key) "Unknown" =
        data.filter (fun r => jsGroupKey r key == "Unknown")) ∧
    prepareChartData
        [[("cat", JSVal.str ""), ("rev", JSVal.num (.fin 10))],
         [("cat", JSVal.num (.fin 0)), ("rev", JSVal.num (.fin 20))]]
        ⟨"by category", "bar", some ["rev"], some ["cat"]⟩ =
      [[("cat", JSVal.str "Unknown"), ("rev", JSVal.num (.fin 30))]] := by
  refine ⟨?_, ?_, by refine ⟨rfl, ?_, ?_, rfl, rfl⟩ <;> decide,
    fun data key => groupBy_filter data key "Unknown", ?_⟩
  · intro v hv item key hget
    unfold jsGroupKey
    rw [hget]
    simp [hv]
  · intro item key hget
    unfold jsGroupKey
    rw [hget]
  · simp only [prepareChartData]
    simp [groupBy, groupAppend, jsGroupKey, jsGet, jsTruthy, jsValToKeyString]
    simp [calculateSum, jsGet, jsParseFloat, jsAdd, JSNum.isNaN, jsSet]
    norm_num
    decide

/-- C9 witness: the falsy-to-"Unknown" facts applied at a `null` value, at
the number `0`, and at an absent key. -/
theorem C9_falsy_merges_to_unknown_witness :
    jsGroupKey [("cat", JSVal.null)] "cat" = "Unknown" ∧
    jsGroupKey [("cat", JSVal.num (.fin 0))] "cat" = "Unknown" ∧
    jsGroupKey [("other", JSVal.str "x")] "cat" = "Unknown" :=
  ⟨C9_falsy_merges_to_unknown.1 JSVal.null (by decide) [("cat", JSVal.null)] "cat"
      (by decide),
   C9_falsy_merges_to_unknown.1 (JSVal.num (.fin 0)) (by decide)
      [("cat", JSVal.num (.fin 0))] "cat" (by decide),
   C9_falsy_merges_to_unknown.2.1 [("other", JSVal.str "x")] "cat" (by decide)⟩

/-! ## C5: chart preparation -/

/-- insertion grows the length by one. -/
theorem sortedInsert_length (le : α → α → Bool) (a : α) :
    ∀ l : List α, (sortedInsert le a l).length = l.length + 1 := by
  intro l
  induction l with
  | nil => rfl
  | cons b bs ih =>
    simp only [sortedInsert]
    split
    · simp [ih]
    · simp

/-- the sort permutes: same length. -/
theorem stableSort_length (le : α → α → Bool) (l : List α) :
    (stableSort le l).length = l.length := by
  suffices h : ∀ (l acc : List α),
      (l.foldl (fun acc x => sortedInsert le x acc) acc).length =
        acc.length + l.length by
    simpa using h l []
  intro l
  induction l with
  | nil => intro acc; simp
  | cons x xs ih =>
    intro acc
    rw [List.foldl_cons, ih, sortedInsert_length]
    simp only [List.length_cons]
    omega

/-- membership through insertion. -/
theorem mem_sortedInsert (le : α → α → Bool) (a x : α) :
    ∀ l : List α, x ∈ sortedInsert le a l ↔ x = a ∨ x ∈ l := by
  intro l
  induction l with
  | nil => simp [sortedInsert]
  | cons b bs ih =>
    simp only [sortedInsert]
    split
    · simp only [List.mem_cons, ih]
      tauto
    · simp only [List.mem_cons]


/-- membership through the sort. -/
theorem mem_stableSort (le : α → α → Bool) (l : List α) (x : α) :
    x ∈ stableSort le l ↔ x ∈ l := by
  suffices h : ∀ (l acc : List α),
      (x ∈ l.foldl (fun acc y => sortedInsert le y acc) acc ↔ x ∈ acc ∨ x ∈ l) by
    simpa using h l []
  intro l
  induction l with
  | nil => intro acc; simp [List.foldl_nil]
  | cons y ys ih =>
    intro acc
    rw [List.foldl_cons, ih, mem_sortedInsert]
    simp only [List.mem_cons]
    tauto

/-- insertion preserves sortedness for a transitive total relation. -/
theorem pairwise_sortedInsert (le : α → α → Bool)
    (trans : ∀ a b c, le a b = true → le b c = true → le a c = true)
    (total : ∀ a b, le a b = true ∨ le b a = true) (a : α) :
    ∀ l : List α, l.Pairwise (fun x y => le x y = true) →
      (sortedInsert le a l).Pairwise (fun x y => le x y = true) := by
  intro l
  induction l with
  | nil => intro _; simp [sortedInsert]
  | cons b bs ih =>
    intro hp
    rw [List.pairwise_cons] at hp
    obtain ⟨hb, hbs⟩ := hp
    simp only [sortedInsert]
    split
    · rename_i hba
      rw [List.pairwise_cons]
      refine ⟨?_, ih hbs⟩
      intro x hx
      rcases (mem_sortedInsert le a x bs).mp hx with rfl | hxbs
      · exact hba
      · exact hb x hxbs
    · rename_i hba
      have hab : le a b = true := by
        rcases total a b with h | h
        · exact h
        · exact absurd h hba
      rw [List.pairwise_cons]
      constructor
      · intro x hx
        rcases List.mem_cons.mp hx with rfl | hxbs
        · exact hab
        · exact trans a b x hab (hb x hxbs)
      · rw [List.pairwise_cons]
        exact ⟨hb, hbs⟩

/-- the sort output is sorted for a transitive total relation. -/
theorem pairwise_stableSort (le : α → α → Bool)
    (trans : ∀ a b c, le a b = true → le b c = true → le a c = true)
    (total : ∀ a b, le a b = true ∨ le b a = true) (l : List α) :
    (stableSort le l).Pairwise (fun x y => le x y = true) := by
  suffices h : ∀ (l acc : List α), acc.Pairwise (fun x y => le x y = true) →
      (l.foldl (fun acc y => sortedInsert le y acc) acc).Pairwise
        (fun x y => le x y = true) by
    exact h l [] (by simp)
  intro l
  induction l with
  | nil => intro acc h; exact h
  | cons y ys ih =>
    intro acc h
    rw [List.foldl_cons]
    exact ih _ (pairwise_sortedInsert le trans total y acc h)

/-- the comparator coercion never produces `NaN`. -/
theorem sortNum_ne_nan (pm : String) (pt : DataRecord) : sortNum pm pt ≠ .nan := by
  cases h : jsGet pt pm with
  | none => simp [sortNum, h]
  | some v =>
    cases v with
    | num x =>
      simp only [sortNum, h]
      split
      · simp
      · rename_i hx
        cases x <;> simp_all [JSNum.isNaN]
    | str s =>
      simp only [sortNum, h]
      split
      · simp
      · cases h2 : jsToNumber s <;> simp [h2]
    | bool b => simp [sortNum, h]
    | null => simp [sortNum, h]

/-- extended `≤` is total off `NaN`. -/
theorem sortKeyLe_total (x y : JSNum) (hx : x ≠ .nan) (hy : y ≠ .nan) :
    sortKeyLe x y = true ∨ sortKeyLe y x = true := by
  cases x <;> cases y <;> simp_all [sortKeyLe]
  exact le_total _ _

/-- extended `≤` is transitive off `NaN`. -/
theorem sortKeyLe_trans (x y z : JSNum) (hy : y ≠ .nan)
    (h1 : sortKeyLe x y = true) (h2 : sortKeyLe y z = true) :
    sortKeyLe x z = true := by
  cases x <;> cases y <;> cases z <;> simp_all [sortKeyLe]
  exact le_trans h1 h2

/-- the chart sort relation is total on records. -/
theorem chartLe_total (pm : String) (a b : DataRecord) :
    chartLe pm a b = true ∨ chartLe pm b a = true :=
  sortKeyLe_total _ _ (sortNum_ne_nan pm b) (sortNum_ne_nan pm a)

/-- the chart sort relation is transitive on records. -/
theorem chartLe_trans (pm : String) (a b c : DataRecord)
    (h1 : chartLe pm a b = true) (h2 : chartLe pm b c = true) :
    chartLe pm a c = true :=
  sortKeyLe_trans _ _ _ (sortNum_ne_nan pm b) h2 h1

/-- reading back the key just written. -/
theorem jsGet_jsSet_self (k : String) (v : JSVal) :
    ∀ pt : DataRecord, jsGet (jsSet pt k v) k = some v := by
  intro pt
  induction pt with
  | nil => simp [jsSet, jsGet]
  | cons p rest ih =>
    obtain ⟨k', w⟩ := p
    by_cases h : k' = k <;> simp [jsSet, jsGet, h, ih]

/-- writes to other keys do not affect a read. -/
theorem jsGet_jsSet_ne (k k' : String) (v : JSVal) (h : k ≠ k') :
    ∀ pt : DataRecord, jsGet (jsSet pt k v) k' = jsGet pt k' := by
  intro pt
  induction pt with
  | nil => simp [jsSet, jsGet, h]
  | cons p rest ih =>
    obtain ⟨k0, w⟩ := p
    by_cases h0 : k0 = k
    · subst h0
      simp [jsSet, jsGet, h]
    · simp [jsSet, jsGet, h0, ih]

/-- a fold of writes never touches an unwritten key. -/
theorem jsGet_foldl_set_not_mem (f : String → JSVal) (m : String) :
    ∀ (ms : List String) (pt : DataRecord), m ∉ ms →
      jsGet (ms.foldl (fun pt' m' => jsSet pt' m' (f m')) pt) m = jsGet pt m := by
  intro ms
  induction ms with
  | nil => intro pt _; rfl
  | cons m' rest ih =>
    intro pt hm
    rw [List.foldl_cons, ih _ (fun h => hm (List.mem_cons_of_mem _ h))]
    exact jsGet_jsSet_ne m' m (f m')
      (fun e => hm (List.mem_cons.mpr (Or.inl e.symm))) pt

/-- after the measure-writing fold, every written key reads back its
value (later writes of the same key write the same value). -/
theorem jsGet_foldl_set (f : String → JSVal) (m : String) :
    ∀ (ms : List String) (pt : DataRecord), m ∈ ms →
      jsGet (ms.foldl (fun pt' m' => jsSet pt' m' (f m')) pt) m = some (f m) := by
  intro ms
  induction ms with
  | nil => intro pt h; cases h
  | cons m' rest ih =>
    intro pt hm
    rw [List.foldl_cons]
    by_cases h : m ∈ rest
    · exact ih _ h
    · have hmm : m = m' := by
        rcases List.mem_cons.mp hm with h' | h'
        · exact h'
        · exact absurd h' h
      subst hmm
      rw [jsGet_foldl_set_not_mem f m rest _ h, jsGet_jsSet_self]

/-- C5.  Chart preparation: with no measures or no dimensions it returns
the first 20 records verbatim; otherwise it emits one data point per
group of the first dimension (key `"Unknown"` for falsy values — the
groups partition the records by group key), sums every listed measure per
group with the KPI-sum coercion, sorts the points descending by the first
measure'\x73 comparator value, and truncates to at most 20 points; on
`[{cat:"Q1",rev:100},{cat:"Q1",rev:50},{cat:"Q2",rev:80}]` grouped by
`cat` summing `rev` it yields `[{cat:"Q1",rev:150},{cat:"Q2",rev:80}]`. -/
theorem C5_chart_preparation :
    (∀ (data : List DataRecord) (cd : ChartDefinition),
      (cd.measures = none ∨ cd.measures = some [] ∨ cd.dimensions = none ∨
        cd.dimensions = some []) →
      prepareChartData data cd = data.take 20) ∧
    (∀ (data : List DataRecord) (cd : ChartDefinition) (pm : String)
        (ms : List String) (pd : String) (ds : List String),
      cd.measures = some (pm :: ms) → cd.dimensions = some (pd :: ds) →
      (prepareChartData data cd).length = min 20 (groupBy data pd).length ∧
      (prepareChartData data cd).Pairwise
        (fun a b => sortKeyLe (sortNum pm b) (sortNum pm a) = true) ∧
      (∀ pt ∈ prepareChartData data cd, ∃ kg, kg ∈ groupBy data pd ∧
        ∀ m ∈ pm :: ms, jsGet pt m = some (.num (calculateSum kg.2 m))) ∧
      (∀ k, groupsGet (groupBy data pd) k =
        data.filter (fun r => jsGroupKey r pd == k))) ∧
    prepareChartData
        [[("cat", JSVal.str "Q1"), ("rev", JSVal.num (.fin 100))],
         [("cat", JSVal.str "Q1"), ("rev", JSVal.num (.fin 50))],
         [("cat", JSVal.str "Q2"), ("rev", JSVal.num (.fin 80))]]
        ⟨"Revenue by quarter", "bar", some ["rev"], some ["cat"]⟩ =
      [[("cat", JSVal.str "Q1"), ("rev", JSVal.num (.fin 150))],
       [("cat", JSVal.str "Q2"), ("rev", JSVal.num (.fin 80))]] := by
  refine ⟨?_, ?_, ?_⟩
  · intro data cd h
    obtain ⟨title, type, meas, dims⟩ := cd
    rcases h with h | h | h | h
    · simp only at h
      subst h
      rfl
    · simp only at h
      subst h
      cases dims with
      | none => rfl
      | some l => cases l <;> rfl
    · simp only at h
      subst h
      cases meas with
      | none => rfl
      | some l => cases l <;> rfl
    · simp only at h
      subst h
      cases meas with
      | none => rfl
      | some l => cases l <;> rfl
  · intro data cd pm ms pd ds hm hd
    have hred : prepareChartData data cd =
        (stableSort (chartLe pm)
          ((groupBy data pd).map (fun g =>
            (pm :: ms).foldl
              (fun pt measure =>
                jsSet pt measure (.num (calculateSum g.2 measure)))
              [(pd, .str g.1)]))).take 20 := by
      simp only [prepareChartData, hm, hd]
    refine ⟨?_, ?_, ?_, fun k => groupBy_filter data pd k⟩
    · rw [hred, List.length_take, stableSort_length, List.length_map]
    · rw [hred]
      have hpair := pairwise_stableSort (chartLe pm) (chartLe_trans pm)
        (chartLe_total pm)
        ((groupBy data pd).map (fun g =>
          (pm :: ms).foldl
            (fun pt measure =>
              jsSet pt measure (.num (calculateSum g.2 measure)))
            [(pd, .str g.1)]))
      exact (hpair.sublist (List.take_sublist 20 _)).imp (fun h => h)
    · intro pt hpt
      rw [hred] at hpt
      have h1 := List.mem_of_mem_take hpt
      have h2 := (mem_stableSort _ _ _).mp h1
      obtain ⟨kg, hkg, heq⟩ := List.mem_map.mp h2
      refine ⟨kg, hkg, ?_⟩
      intro m hmem
      rw [← heq]
      exact jsGet_foldl_set (fun measure => JSVal.num (calculateSum kg.2 measure)) m
        (pm :: ms) [(pd, .str kg.1)] hmem
  · simp only [prepareChartData]
    simp [groupBy, groupAppend, jsGroupKey, jsGet, jsTruthy, jsValToKeyString]
    simp [calculateSum, jsGet, jsParseFloat, jsAdd, JSNum.isNaN, jsSet]
    norm_num
    decide

/-- C5 witness: the no-aggregation branch at an absent measure list, and
the aggregation facts at the concrete quarterly example. -/
theorem C5_chart_preparation_witness :
    prepareChartData
        [[("cat", JSVal.str "Q1"), ("rev", JSVal.num (.fin 100))]]
        ⟨"bare", "bar", none, some ["cat"]⟩ =
      ([[("cat", JSVal.str "Q1"), ("rev", JSVal.num (.fin 100))]] :
        List DataRecord).take 20 ∧
    (prepareChartData
        [[("cat", JSVal.str "Q1"), ("rev", JSVal.num (.fin 100))],
         [("cat", JSVal.str "Q1"), ("rev", JSVal.num (.fin 50))],
         [("cat", JSVal.str "Q2"), ("rev", JSVal.num (.fin 80))]]
        ⟨"Revenue by quarter", "bar", some ["rev"], some ["cat"]⟩).length =
      min 20
        (groupBy
          [[("cat", JSVal.str "Q1"), ("rev", JSVal.num (.fin 100))],
           [("cat", JSVal.str "Q1"), ("rev", JSVal.num (.fin 50))],
           [("cat", JSVal.str "Q2"), ("rev", JSVal.num (.fin 80))]] "cat").length :=
  ⟨C5_chart_preparation.1 _ ⟨"bare", "bar", none, some ["cat"]⟩ (Or.inl rfl),
   (C5_chart_preparation.2.1 _ ⟨"Revenue by quarter", "bar", some ["rev"], some ["cat"]⟩
      "rev" [] "cat" [] rfl rfl).1⟩

/-! ## C7: insufficient-data validation in the structured extractor -/

/-- the decoded-payload validation: a well-populated `data` array passes
unchanged; any payload whose `data` is absent, not an array, or shorter
than the minimum fails with the insufficient-data error. -/
theorem validateExtractionData_spec (minRecords : Nat) (p : JSON)
    (hnn : p ≠ JSON.null) :
    (∀ xs, jsonGet p "data" = some (.arr xs) → minRecords ≤ xs.length →
      validateExtractionData minRecords p = .ok p) ∧
    ((∀ xs, ¬ (jsonGet p "data" = some (.arr xs) ∧ minRecords ≤ xs.length)) →
      validateExtractionData minRecords p = .error .insufficientData) := by
  constructor
  · intro xs hget hlen
    cases p with
    | null => exact absurd rfl hnn
    | bool b => simp [jsonGet] at hget
    | num n => simp [jsonGet] at hget
    | str s => simp [jsonGet] at hget
    | arr l => simp [jsonGet] at hget
    | obj ms =>
      simp only [validateExtractionData, hget]
      rw [if_neg (by omega)]
  · intro hbad
    cases p with
    | null => exact absurd rfl hnn
    | bool b => simp [validateExtractionData, jsonGet]
    | num n => simp [validateExtractionData, jsonGet]
    | str s => simp [validateExtractionData, jsonGet]
    | arr l => simp [validateExtractionData, jsonGet]
    | obj ms =>
      simp only [validateExtractionData]
      cases hget : jsonGet (JSON.obj ms) "data" with
      | none => rfl
      | some v =>
        cases v with
        | arr xs =>
          have hlt : xs.length < minRecords := by
            by_contra hc
            exact hbad xs ⟨hget, by omega⟩
          show (if xs.length < minRecords then
              Except.error ExtractError.insufficientData
            else Except.ok (JSON.obj ms)) = Except.error ExtractError.insufficientData
          rw [if_pos hlt]
        | null => rfl
        | bool b => rfl
        | num n => rfl
        | str s => rfl
        | obj ms2 => rfl

/-- C7.  For every model response that decodes successfully to a non-null
payload: a `data` field that is absent, not an array, or shorter than the
configured minimum yields the insufficient-data error — a constructor
distinct from every gateway and decode failure — while a sufficient
payload is returned as the extraction result; a gateway failure maps to
the gateway error.  (The source instantiates `minRecords` to 2 in
`extractStructuredDataWithChunking` and 3 in `extractStructuredData`.) -/
theorem C7_insufficient_data (minRecords : Nat) (raw : String) (p : JSON)
    (hdec : parseJSONResponse raw = .ok p) (hnn : p ≠ JSON.null) :
    ((∀ xs, ¬ (jsonGet p "data" = some (.arr xs) ∧ minRecords ≤ xs.length)) →
      extractStructuredDataCore minRecords (.ok raw) = .error .insufficientData) ∧
    (∀ xs, jsonGet p "data" = some (.arr xs) → minRecords ≤ xs.length →
      extractStructuredDataCore minRecords (.ok raw) = .ok p) ∧
    (∀ m, ExtractError.insufficientData ≠ .gateway m ∧
      ExtractError.insufficientData ≠ .decode m) ∧
    (∀ m, extractStructuredDataCore minRecords (.error m) = .error (.gateway m)) := by
  have hcore : extractStructuredDataCore minRecords (.ok raw) =
      validateExtractionData minRecords p := by
    simp only [extractStructuredDataCore, hdec]
  refine ⟨?_, ?_, ?_, fun m => rfl⟩
  · intro hbad
    rw [hcore]
    exact (validateExtractionData_spec minRecords p hnn).2 hbad
  · intro xs hget hlen
    rw [hcore]
    exact (validateExtractionData_spec minRecords p hnn).1 xs hget hlen
  · intro m
    exact ⟨(fun h => nomatch h), (fun h => nomatch h)⟩

/-- C7 witness: at minimum 3, a decoded payload with a two-element `data`
array fails with the insufficient-data error, and a three-element one is
returned; the hypotheses are discharged at the concrete decoded objects. -/
theorem C7_insufficient_data_witness :
    extractStructuredDataCore 3 (.ok "\x7b\"data\":[1,2]\x7d") =
      .error .insufficientData ∧
    extractStructuredDataCore 3 (.ok "\x7b\"data\":[1,2,3]\x7d") =
      .ok (.obj (.cons "data"
        (.arr (.cons (.num 1) (.cons (.num 2) (.cons (.num 3) .nil)))) .nil)) :=
  by
  constructor
  · apply (C7_insufficient_data 3 "\x7b\"data\":[1,2]\x7d"
      (.obj (.cons "data" (.arr (.cons (.num 1) (.cons (.num 2) .nil))) .nil))
      (by decide) (by decide)).1
    intro xs h
    obtain ⟨h1, h2⟩ := h
    rw [show jsonGet
        (.obj (.cons "data" (.arr (.cons (.num 1) (.cons (.num 2) .nil))) .nil))
        "data" =
        some (JSON.arr (.cons (.num 1) (.cons (.num 2) .nil))) from rfl] at h1
    cases h1
    exact absurd h2 (by decide)
  · exact (C7_insufficient_data 3 "\x7b\"data\":[1,2,3]\x7d"
      (.obj (.cons "data"
        (.arr (.cons (.num 1) (.cons (.num 2) (.cons (.num 3) .nil)))) .nil))
      (by decide) (by decide)).2.1
      (.cons (.num 1) (.cons (.num 2) (.cons (.num 3) .nil))) (by decide) (by decide)

/-! ## C8: decoder idempotence — character and digit lemmas -/

/-- characters with distinct codes are distinct. -/
theorem char_ne_of_toNat_ne {c c' : Char} (h : c.toNat ≠ c'.toNat) : c ≠ c' :=
  fun e => h (congrArg Char.toNat e)

/-- `Char.ofNat` below the surrogate range preserves the code. -/
theorem toNat_charOfNat (n : Nat) (h : n < 55296) : (Char.ofNat n).toNat = n := by
  unfold Char.ofNat
  rw [dif_pos]
  · rfl
  · exact Or.inl h

/-- code of a digit character. -/
theorem digitChar_toNat (d : Nat) (h : d < 10) : (digitChar d).toNat = 48 + d := by
  unfold digitChar
  exact toNat_charOfNat (48 + d) (by omega)

/-- a digit character round-trips through `digitVal`. -/
theorem digitVal_digitChar (d : Nat) (h : d < 10) : digitVal (digitChar d) = d := by
  unfold digitVal
  rw [digitChar_toNat d h]
  omega

/-- a digit character passes the digit test. -/
theorem isDigitChar_digitChar (d : Nat) (h : d < 10) :
    isDigitChar (digitChar d) = true := by
  unfold isDigitChar
  rw [digitChar_toNat d h]
  simp
  omega

/-- a character in the digit range is not JSON whitespace. -/
theorem jsonWs_false_of_digit (c : Char) (h : isDigitChar c = true) :
    jsonWs c = false := by
  unfold isDigitChar at h
  simp only [Bool.and_eq_true, decide_eq_true_eq] at h
  unfold jsonWs
  have e1 : ¬ (c = ' ') := fun e => by rw [e] at h; exact absurd h (by decide)
  have e2 : ¬ (c = '\t') := fun e => by rw [e] at h; exact absurd h (by decide)
  have e3 : ¬ (c = '\n') := fun e => by rw [e] at h; exact absurd h (by decide)
  have e4 : ¬ (c = '\r') := fun e => by rw [e] at h; exact absurd h (by decide)
  simp [e1, e2, e3, e4]

/-- a character in the digit range is not a closing bracket. -/
theorem digit_ne_rbracket (c : Char) (h : isDigitChar c = true) : c ≠ ']' := by
  unfold isDigitChar at h
  simp only [Bool.and_eq_true, decide_eq_true_eq] at h
  exact char_ne_of_toNat_ne
    (by intro e; rw [show (']' : Char).toNat = 93 from rfl] at e; omega)

/-- `skipWs` does not move over a non-whitespace head. -/
theorem skipWs_cons_of_not_ws (c : Char) (cs : List Char) (h : jsonWs c = false) :
    skipWs (c :: cs) = c :: cs := by
  unfold skipWs
  rw [List.dropWhile_cons, if_neg (by simp [h])]

/-! ## C8: decimal rendering round trip -/

/-- every character of the digit accumulator is a digit character. -/
theorem natToCharsAux_mem (f : Nat) :
    ∀ (n : Nat) (c : Char), c ∈ natToCharsAux f n → ∃ d, d < 10 ∧ c = digitChar d := by
  induction f with
  | zero => intro n c h; simp [natToCharsAux] at h
  | succ f ih =>
    intro n c h
    simp only [natToCharsAux] at h
    split at h
    · simp at h
    · rcases List.mem_cons.mp h with rfl | h2
      · exact ⟨n % 10, by omega, rfl⟩
      · exact ih (n / 10) c h2

/-- the accumulator is nonempty for a positive number. -/
theorem natToCharsAux_ne_nil (f n : Nat) (h1 : 0 < n) (h2 : n ≤ f) :
    natToCharsAux f n ≠ [] := by
  match f with
  | 0 => omega
  | f + 1 =>
    simp only [natToCharsAux, if_neg (by omega : ¬ n = 0)]
    exact List.cons_ne_nil _ _

/-- the most significant digit of a positive number is nonzero. -/
theorem natToCharsAux_getLast (f : Nat) :
    ∀ n : Nat, 0 < n → n ≤ f →
      ∃ d, 0 < d ∧ d < 10 ∧ (natToCharsAux f n).getLast? = some (digitChar d) := by
  induction f with
  | zero => intro n h1 h2; omega
  | succ f ih =>
    intro n h1 h2
    simp only [natToCharsAux, if_neg (by omega : ¬ n = 0)]
    by_cases h10 : n < 10
    · have hz : n / 10 = 0 := by omega
      rw [hz, show natToCharsAux f 0 = [] from by cases f <;> simp [natToCharsAux]]
      exact ⟨n, h1, h10, by rw [Nat.mod_eq_of_lt h10]; rfl⟩
    · have hq1 : 0 < n / 10 := by omega
      have hq2 : n / 10 ≤ f := by
        have := Nat.div_lt_self h1 (by omega : 1 < 10)
        omega
      obtain ⟨d, hd1, hd2, hd3⟩ := ih (n / 10) hq1 hq2
      refine ⟨d, hd1, hd2, ?_⟩
      match hne : natToCharsAux f (n / 10) with
      | [] => exact absurd hne (natToCharsAux_ne_nil f (n / 10) hq1 hq2)
      | x :: xs =>
        rw [List.getLast?_cons_cons]
        rw [hne] at hd3
        exact hd3

/-- digit-fold inversion: folding the rendered digits of a positive `n`
recovers `n` on top of the shifted accumulator. -/
theorem natToCharsAux_foldl (f : Nat) :
    ∀ n : Nat, 0 < n → n ≤ f → ∀ acc : Nat,
      ((natToCharsAux f n).reverse).foldl (fun a c => a * 10 + digitVal c) acc =
        acc * 10 ^ (natToCharsAux f n).length + n := by
  induction f with
  | zero => intro n h1 h2; omega
  | succ f ih =>
    intro n h1 h2 acc
    simp only [natToCharsAux, if_neg (by omega : ¬ n = 0)]
    rw [List.reverse_cons, List.foldl_append]
    by_cases h10 : n < 10
    · have hz : n / 10 = 0 := by omega
      rw [hz, show natToCharsAux f 0 = [] from by cases f <;> simp [natToCharsAux]]
      simp only [List.reverse_nil, List.foldl_nil, List.foldl_cons, List.length_cons,
        List.length_nil]
      rw [digitVal_digitChar (n % 10) (by omega), Nat.mod_eq_of_lt h10]
      ring
    · have hq1 : 0 < n / 10 := by omega
      have hq2 : n / 10 ≤ f := by
        have := Nat.div_lt_self h1 (by omega : 1 < 10)
        omega
      rw [ih (n / 10) hq1 hq2 acc]
      simp only [List.foldl_cons, List.foldl_nil, List.length_cons]
      rw [digitVal_digitChar (n % 10) (by omega)]
      have hmd : n / 10 * 10 + n % 10 = n := by omega
      rw [Nat.pow_succ]
      calc (acc * 10 ^ (natToCharsAux f (n / 10)).length + n / 10) * 10 + n % 10
          = acc * (10 ^ (natToCharsAux f (n / 10)).length * 10) +
              (n / 10 * 10 + n % 10) := by ring
        _ = acc * (10 ^ (natToCharsAux f (n / 10)).length * 10) + n := by rw [hmd]

/-- the decimal rendering parses back to the same number. -/
theorem natOfDigits_natToChars (n : Nat) : natOfDigits (natToChars n) = n := by
  unfold natToChars natOfDigits
  by_cases h : n = 0
  · subst h
    decide
  · rw [if_neg h]
    rw [natToCharsAux_foldl (n + 1) n (by omega) (by omega) 0]
    simp

/-- head shape of the decimal rendering: a digit, nonzero when `n` is. -/
theorem natToChars_head (n : Nat) :
    ∃ c cs, natToChars n = c :: cs ∧ isDigitChar c = true ∧ (0 < n → c ≠ '0') := by
  by_cases h : n = 0
  · subst h
    exact ⟨'0', [], rfl, by decide, by omega⟩
  · obtain ⟨d, hd1, hd2, hd3⟩ := natToCharsAux_getLast (n + 1) n (by omega) (by omega)
    have hh : (natToChars n).head? = some (digitChar d) := by
      unfold natToChars
      rw [if_neg h, List.head?_reverse]
      exact hd3
    match hl : natToChars n with
    | [] => rw [hl] at hh; simp at hh
    | c :: cs =>
      rw [hl] at hh
      simp only [List.head?_cons, Option.some.injEq] at hh
      subst hh
      refine ⟨digitChar d, cs, rfl, isDigitChar_digitChar d hd2, fun _ => ?_⟩
      exact char_ne_of_toNat_ne
        (by rw [digitChar_toNat d hd2, show ('0' : Char).toNat = 48 from rfl]; omega)

/-- every character of the rendering is a digit. -/
theorem natToChars_all_digits (n : Nat) :
    ∀ c ∈ natToChars n, isDigitChar c = true := by
  intro c hc
  unfold natToChars at hc
  by_cases h : n = 0
  · rw [if_pos h] at hc
    simp at hc
    subst hc
    decide
  · rw [if_neg h, List.mem_reverse] at hc
    obtain ⟨d, hd, rfl⟩ := natToCharsAux_mem (n + 1) n c hc
    exact isDigitChar_digitChar d hd

/-- `takeWhile` runs through a block that satisfies the predicate and
stops at a boundary. -/
theorem takeWhile_append_block (p : Char → Bool) :
    ∀ (xs ys : List Char), (∀ x ∈ xs, p x = true) →
      (∀ y, ys.head? = some y → p y = false) →
      (xs ++ ys).takeWhile p = xs := by
  intro xs
  induction xs with
  | nil =>
    intro ys _ hy
    cases ys with
    | nil => rfl
    | cons y t =>
      simp only [List.nil_append, List.takeWhile_cons, hy y rfl]
      simp
  | cons x xt ih =>
    intro ys hx hy
    simp only [List.cons_append, List.takeWhile_cons, hx x (List.mem_cons_self x xt)]
    rw [ih ys (fun z hz => hx z (List.mem_cons_of_mem x hz)) hy]
    simp

/-- head of the rest after a token boundary is no digit. -/
theorem tokenBoundary_head_not_digit (rest : List Char)
    (h : tokenBoundaryB rest = true) :
    ∀ y, rest.head? = some y → isDigitChar y = false := by
  intro y hy
  cases rest with
  | nil => simp at hy
  | cons c t =>
    simp only [List.head?_cons, Option.some.injEq] at hy
    subst hy
    simp only [tokenBoundaryB, Bool.and_eq_true, Bool.not_eq_true'] at h
    exact h.1

/-- a token boundary is in particular a number boundary. -/
theorem tokenBoundary_numBoundary (rest : List Char)
    (h : tokenBoundaryB rest = true) : numBoundaryB rest = true := by
  cases rest with
  | nil => rfl
  | cons c t =>
    simp only [tokenBoundaryB, Bool.and_eq_true] at h
    -- numBoundaryB (c :: t) is the conjunction of the last three tests
    simp only [numBoundaryB] at h ⊢
    exact h.2

/-- parsing the rendered natural recovers it whenever a token boundary
follows. -/
theorem parseNatCore_emit (n : Nat) (rest : List Char)
    (hb : tokenBoundaryB rest = true) :
    parseNatCore (natToChars n ++ rest) = some (n, rest) := by
  by_cases h : n = 0
  · subst h
    show parseNatCore ('0' :: rest) = some (0, rest)
    unfold parseNatCore
    simp only [if_pos rfl, tokenBoundary_numBoundary rest hb, if_true]
  · obtain ⟨c, cs, hcons, hdig, hne0⟩ := natToChars_head n
    rw [hcons, List.cons_append]
    simp only [parseNatCore]
    rw [if_neg (hne0 (by omega)), if_pos hdig]
    have hall : ∀ x ∈ c :: cs, isDigitChar x = true := by
      rw [← hcons]; exact natToChars_all_digits n
    have htake : (c :: (cs ++ rest)).takeWhile isDigitChar = c :: cs := by
      rw [show c :: (cs ++ rest) = (c :: cs) ++ rest from rfl]
      exact takeWhile_append_block isDigitChar (c :: cs) rest hall
        (tokenBoundary_head_not_digit rest hb)
    rw [htake]
    have hdrop : (c :: (cs ++ rest)).drop (c :: cs).length = rest := by
      rw [show c :: (cs ++ rest) = (c :: cs) ++ rest from rfl]
      exact List.drop_left (c :: cs) rest
    rw [hdrop, tokenBoundary_numBoundary rest hb, if_pos rfl]
    rw [← hcons, natOfDigits_natToChars n]

/-- parsing the rendered integer recovers it whenever a token boundary
follows. -/
theorem parseNumCore_emit (i : Int) (rest : List Char)
    (hb : tokenBoundaryB rest = true) :
    parseNumCore (intToChars i ++ rest) = some (.num i, rest) := by
  by_cases h : i < 0
  · unfold intToChars
    rw [if_pos h, List.cons_append]
    simp only [parseNumCore]
    rw [parseNatCore_emit i.natAbs rest hb]
    simp only [Option.map_some']
    have he : (-(i.natAbs : ℤ)) = i := by omega
    rw [he]
  · unfold intToChars
    rw [if_neg h]
    obtain ⟨c, cs, hcons, hdig, _⟩ := natToChars_head i.toNat
    rw [hcons, List.cons_append]
    have hcm : c ≠ '-' := by
      unfold isDigitChar at hdig
      simp only [Bool.and_eq_true, decide_eq_true_eq] at hdig
      exact char_ne_of_toNat_ne
        (by rw [show ('-' : Char).toNat = 45 from rfl]; omega)
    unfold parseNumCore
    split
    · rename_i heq
      injection heq with h1 h2
      exact absurd h1 hcm
    · rw [← List.cons_append, ← hcons, parseNatCore_emit i.toNat rest hb]
      simp only [Option.map_some']
      have he : ((i.toNat : ℤ)) = i := by omega
      rw [he]


/-- hex digits round-trip through `hexVal`. -/
theorem hexVal_hexDigitChar (d : Nat) (h : d < 16) :
    hexVal (hexDigitChar d) = some d := by
  unfold hexDigitChar
  by_cases h10 : d < 10
  · rw [if_pos h10]
    unfold hexVal digitChar
    rw [toNat_charOfNat (48 + d) (by omega)]
    rw [if_pos (by simp; omega)]
    simp
  · rw [if_neg h10]
    unfold hexVal
    rw [toNat_charOfNat (87 + d) (by omega)]
    rw [if_neg (by simp; omega), if_pos (by simp; omega)]
    simp

/-- `parseEsc` on a single-character escape. -/
theorem parseEsc_simple (e ch : Char) (r : List Char)
    (he : ¬ e = 'u') (hm : escUnmap e = some ch) :
    parseEsc (e :: r) = some (ch, r) := by
  simp only [parseEsc]
  rw [if_neg he, hm]

/-- `parseEsc` on a unicode escape with four valid hex digits. -/
theorem parseEsc_unicode (x1 x2 x3 x4 : Char) (a b cv d : Nat)
    (r2 : List Char)
    (e1 : hexVal x1 = some a) (e2 : hexVal x2 = some b)
    (e3 : hexVal x3 = some cv) (e4 : hexVal x4 = some d) :
    parseEsc ('u' :: x1 :: x2 :: x3 :: x4 :: r2) =
      some (Char.ofNat (((a * 16 + b) * 16 + cv) * 16 + d), r2) := by
  simp only [parseEsc, e1, e2, e3, e4]
  simp

/-- `parseStrBody` on an ordinary character (not a quote, not a
backslash): reject controls, otherwise keep it. -/
theorem parseStrBody_cons_plain (fuel : Nat) (c : Char) (xs : List Char)
    (h1 : c ≠ '"') (h2 : c ≠ '\\') :
    parseStrBody (fuel + 1) (c :: xs) =
      if c.toNat < 32 then none
      else (parseStrBody fuel xs).map (fun p => (c :: p.1, p.2)) := by
  simp only [parseStrBody]
  rw [if_neg h1, if_neg h2]

/-- `parseStrBody` after a backslash consults `parseEsc`. -/
theorem parseStrBody_cons_backslash (fuel : Nat) (xs : List Char)
    (ch : Char) (r : List Char) (hm : parseEsc xs = some (ch, r)) :
    parseStrBody (fuel + 1) ('\\' :: xs) =
      (parseStrBody fuel r).map (fun p => (ch :: p.1, p.2)) := by
  simp only [parseStrBody, hm]
  simp

/-- unescaping inverts escaping: the string body parse recovers the
original characters up to the closing quote, given fuel above the
character count. -/
theorem parseStrBody_escChars :
    ∀ (cs : List Char) (fuel : Nat) (rest : List Char),
      cs.length < fuel →
      parseStrBody fuel (escChars cs ++ '"' :: rest) = some (cs, rest) := by
  intro cs
  induction cs with
  | nil =>
    intro fuel rest hf
    match fuel, hf with
    | fuel + 1, _ =>
      show parseStrBody (fuel + 1) ('"' :: rest) = some ([], rest)
      simp [parseStrBody]
  | cons c ct ih =>
    intro fuel rest hf
    match fuel, hf with
    | fuel + 1, hf =>
      have hct : ct.length < fuel := by
        simp only [List.length_cons] at hf
        omega
      show parseStrBody (fuel + 1) ((escChar c ++ escChars ct) ++ '"' :: rest) =
        some (c :: ct, rest)
      rw [List.append_assoc]
      by_cases h1 : c = '"'
      · subst h1
        rw [show escChar '"' = ['\\', '"'] from rfl]
        simp only [List.cons_append, List.nil_append]
        rw [parseStrBody_cons_backslash fuel _ '"' _
            (parseEsc_simple '"' '"' _ (by decide) (by decide)),
          ih fuel rest hct]
        rfl
      · by_cases h2 : c = '\\'
        · subst h2
          rw [show escChar '\\' = ['\\', '\\'] from rfl]
          simp only [List.cons_append, List.nil_append]
          rw [parseStrBody_cons_backslash fuel _ '\\' _
              (parseEsc_simple '\\' '\\' _ (by decide) (by decide)),
            ih fuel rest hct]
          rfl
        · by_cases h8 : c.toNat = 8
          · have hc : c = Char.ofNat 8 := by rw [← h8, Char.ofNat_toNat]
            subst hc
            rw [show escChar (Char.ofNat 8) = ['\\', 'b'] from rfl]
            simp only [List.cons_append, List.nil_append]
            rw [parseStrBody_cons_backslash fuel _ (Char.ofNat 8) _
                (parseEsc_simple 'b' (Char.ofNat 8) _ (by decide) (by decide)),
              ih fuel rest hct]
            rfl
          · by_cases h9 : c.toNat = 9
            · have hc : c = Char.ofNat 9 := by rw [← h9, Char.ofNat_toNat]
              subst hc
              rw [show escChar (Char.ofNat 9) = ['\\', 't'] from rfl]
              simp only [List.cons_append, List.nil_append]
              rw [parseStrBody_cons_backslash fuel _ (Char.ofNat 9) _
                  (parseEsc_simple 't' (Char.ofNat 9) _ (by decide) (by decide)),
                ih fuel rest hct]
              rfl
            · by_cases h10 : c.toNat = 10
              · have hc : c = Char.ofNat 10 := by rw [← h10, Char.ofNat_toNat]
                subst hc
                rw [show escChar (Char.ofNat 10) = ['\\', 'n'] from rfl]
                simp only [List.cons_append, List.nil_append]
                rw [parseStrBody_cons_backslash fuel _ (Char.ofNat 10) _
                    (parseEsc_simple 'n' (Char.ofNat 10) _ (by decide) (by decide)),
                  ih fuel rest hct]
                rfl
              · by_cases h12 : c.toNat = 12
                · have hc : c = Char.ofNat 12 := by rw [← h12, Char.ofNat_toNat]
                  subst hc
                  rw [show escChar (Char.ofNat 12) = ['\\', 'f'] from rfl]
                  simp only [List.cons_append, List.nil_append]
                  rw [parseStrBody_cons_backslash fuel _ (Char.ofNat 12) _
                      (parseEsc_simple 'f' (Char.ofNat 12) _ (by decide) (by decide)),
                    ih fuel rest hct]
                  rfl
                · by_cases h13 : c.toNat = 13
                  · have hc : c = Char.ofNat 13 := by rw [← h13, Char.ofNat_toNat]
                    subst hc
                    rw [show escChar (Char.ofNat 13) = ['\\', 'r'] from rfl]
                    simp only [List.cons_append, List.nil_append]
                    rw [parseStrBody_cons_backslash fuel _ (Char.ofNat 13) _
                        (parseEsc_simple 'r' (Char.ofNat 13) _ (by decide) (by decide)),
                      ih fuel rest hct]
                    rfl
                  · by_cases hctl : c.toNat < 32
                    · have hesc : escChar c =
                          ['\\', 'u', '0', '0', hexDigitChar (c.toNat / 16),
                            hexDigitChar (c.toNat % 16)] := by
                        unfold escChar
                        rw [if_neg h1, if_neg h2, if_neg h8, if_neg h9,
                          if_neg h10, if_neg h12, if_neg h13, if_pos hctl]
                      rw [hesc]
                      simp only [List.cons_append, List.nil_append]
                      rw [parseStrBody_cons_backslash fuel _ _ _
                          (parseEsc_unicode '0' '0'
                            (hexDigitChar (c.toNat / 16))
                            (hexDigitChar (c.toNat % 16))
                            0 0 (c.toNat / 16) (c.toNat % 16) _
                            (by decide) (by decide)
                            (hexVal_hexDigitChar (c.toNat / 16) (by omega))
                            (hexVal_hexDigitChar (c.toNat % 16) (by omega))),
                        ih fuel rest hct]
                      simp only [Option.map_some']
                      have hval : ((0 * 16 + 0) * 16 + c.toNat / 16) * 16 +
                          c.toNat % 16 = c.toNat := by omega
                      rw [hval, Char.ofNat_toNat]
                    · have hesc : escChar c = [c] := by
                        unfold escChar
                        rw [if_neg h1, if_neg h2, if_neg h8, if_neg h9,
                          if_neg h10, if_neg h12, if_neg h13, if_neg hctl]
                      rw [hesc]
                      simp only [List.cons_append, List.nil_append]
                      rw [parseStrBody_cons_plain fuel c _ h1 h2, if_neg hctl,
                        ih fuel rest hct]
                      rfl

/-- a comma is a token boundary. -/
theorem tokenBoundaryB_comma (x : List Char) : tokenBoundaryB (',' :: x) = true := rfl

/-- a closing bracket is a token boundary. -/
theorem tokenBoundaryB_rbracket (x : List Char) : tokenBoundaryB (']' :: x) = true := rfl

/-- a closing brace is a token boundary. -/
theorem tokenBoundaryB_rbrace (x : List Char) :
    tokenBoundaryB (rbraceChar :: x) = true := rfl

/-- every escape emits at least one character. -/
theorem one_le_length_escChar (c : Char) : 1 ≤ (escChar c).length := by
  unfold escChar
  repeat' split
  all_goals simp

/-- escaping does not shorten a string. -/
theorem le_length_escChars (cs : List Char) : cs.length ≤ (escChars cs).length := by
  induction cs with
  | nil => simp [escChars]
  | cons c ct ih =>
    show (c :: ct).length ≤ (escChar c ++ escChars ct).length
    rw [List.length_append, List.length_cons]
    have := one_le_length_escChar c
    omega

/-- a decimal digit differs from any character outside the digit range. -/
theorem digit_ne_char (c x : Char) (h : isDigitChar c = true)
    (hx : x.toNat < 48 ∨ 57 < x.toNat) : ¬ c = x := by
  unfold isDigitChar at h
  simp only [Bool.and_eq_true, decide_eq_true_eq] at h
  exact char_ne_of_toNat_ne (by omega)

/-- every serialized value starts with a non-whitespace character other
than a closing bracket. -/
theorem emitJSON_head (j : JSON) :
    ∃ c cs, emitJSON j = c :: cs ∧ jsonWs c = false ∧ ¬ c = ']' := by
  cases j with
  | null => exact ⟨'n', _, rfl, by decide, by decide⟩
  | bool b =>
    cases b with
    | false => exact ⟨'f', _, rfl, by decide, by decide⟩
    | true => exact ⟨'t', _, rfl, by decide, by decide⟩
  | num i =>
    by_cases h : i < 0
    · refine ⟨'-', natToChars i.natAbs, ?_, by decide, by decide⟩
      show intToChars i = _
      rw [intToChars, if_pos h]
    · obtain ⟨c, cs, h1, h2, _⟩ := natToChars_head i.toNat
      refine ⟨c, cs, ?_, jsonWs_false_of_digit c h2, digit_ne_rbracket c h2⟩
      show intToChars i = _
      rw [intToChars, if_neg h, h1]
  | str s => exact ⟨'"', _, rfl, by decide, by decide⟩
  | arr xs => exact ⟨'[', _, rfl, by decide, by decide⟩
  | obj ms => exact ⟨lbraceChar, _, rfl, by decide, by decide⟩

/-- serializations are never empty. -/
theorem one_le_length_emitJSON (j : JSON) : 1 ≤ (emitJSON j).length := by
  obtain ⟨c, cs, h, _, _⟩ := emitJSON_head j
  rw [h]
  simp

/-- rebuilding a string from its character list is the identity. -/
theorem asString_toList (s : String) : s.toList.asString = s := by
  cases s
  rfl

/-- parsing the serialization of `null`. -/
theorem parseVal_emit_null (f : Nat) (rest : List Char) :
    parseVal (f + 1) (emitJSON .null ++ rest) = some (.null, rest) := by
  show parseVal (f + 1) (['n', 'u', 'l', 'l'] ++ rest) = some (.null, rest)
  simp only [List.cons_append, List.nil_append, parseVal]
  rw [skipWs_cons_of_not_ws 'n' _ (by decide)]
  simp

/-- parsing the serialization of a boolean. -/
theorem parseVal_emit_bool (f : Nat) (b : Bool) (rest : List Char) :
    parseVal (f + 1) (emitJSON (.bool b) ++ rest) = some (.bool b, rest) := by
  cases b with
  | false =>
    show parseVal (f + 1) (['f', 'a', 'l', 's', 'e'] ++ rest) = _
    simp only [List.cons_append, List.nil_append, parseVal]
    rw [skipWs_cons_of_not_ws 'f' _ (by decide)]
    simp
  | true =>
    show parseVal (f + 1) (['t', 'r', 'u', 'e'] ++ rest) = _
    simp only [List.cons_append, List.nil_append, parseVal]
    rw [skipWs_cons_of_not_ws 't' _ (by decide)]
    simp

/-- parsing the serialization of a string value. -/
theorem parseVal_emit_str (f : Nat) (s : String) (rest : List Char)
    (hlen : (emitJSON (.str s)).length < f + 1) :
    parseVal (f + 1) (emitJSON (.str s) ++ rest) = some (.str s, rest) := by
  have hsl : s.toList.length < f := by
    have h1 := le_length_escChars s.toList
    have h2 : (emitJSON (.str s)).length = (escChars s.toList).length + 2 := by
      show (('"' :: escChars s.toList ++ ['"']).length) = _
      simp
    omega
  show parseVal (f + 1) (('"' :: escChars s.toList ++ ['"']) ++ rest) = _
  simp only [List.cons_append, List.append_assoc, List.nil_append, parseVal]
  rw [skipWs_cons_of_not_ws '"' _ (by decide)]
  simp only [show (('"' : Char) = 'n') = False by simp,
    show (('"' : Char) = 't') = False by simp,
    show (('"' : Char) = 'f') = False by simp, if_false, if_true,
    reduceIte]
  rw [parseStrBody_escChars s.toList f rest hsl]
  simp only [Option.map_some']
  rw [asString_toList]

/-- parsing the serialization of a number. -/
theorem parseVal_emit_num (f : Nat) (i : Int) (rest : List Char)
    (hb : tokenBoundaryB rest = true) :
    parseVal (f + 1) (emitJSON (.num i) ++ rest) = some (.num i, rest) := by
  have hnum := parseNumCore_emit i rest hb
  by_cases h : i < 0
  · show parseVal (f + 1) (intToChars i ++ rest) = _
    rw [intToChars, if_pos h] at hnum ⊢
    rw [List.cons_append] at hnum ⊢
    simp only [parseVal,
      skipWs_cons_of_not_ws '-' (natToChars i.natAbs ++ rest) (by decide)]
    simp only [show (('-' : Char) = 'n') = False by simp,
      show (('-' : Char) = 't') = False by simp,
      show (('-' : Char) = 'f') = False by simp,
      show (('-' : Char) = '"') = False by simp,
      show (('-' : Char) = '[') = False by simp,
      show (('-' : Char) = lbraceChar) = False by simp [lbraceChar],
      if_false]
    exact hnum
  · obtain ⟨c, cs, h1, h2, _⟩ := natToChars_head i.toNat
    show parseVal (f + 1) (intToChars i ++ rest) = _
    rw [intToChars, if_neg h] at hnum ⊢
    rw [h1] at hnum ⊢
    rw [List.cons_append] at hnum ⊢
    simp only [parseVal,
      skipWs_cons_of_not_ws c (cs ++ rest) (jsonWs_false_of_digit c h2)]
    rw [if_neg (digit_ne_char c 'n' h2 (by decide)),
      if_neg (digit_ne_char c 't' h2 (by decide)),
      if_neg (digit_ne_char c 'f' h2 (by decide)),
      if_neg (digit_ne_char c '"' h2 (by decide)),
      if_neg (digit_ne_char c '[' h2 (by decide)),
      if_neg (digit_ne_char c lbraceChar h2 (by decide))]
    exact hnum

/-- length of an array serialization. -/
theorem length_emitJSON_arr (xs : JSONList) :
    (emitJSON (.arr xs)).length = (emitList xs).length + 2 := by
  show ('[' :: emitList xs ++ [']']).length = _
  simp

/-- length of an object serialization. -/
theorem length_emitJSON_obj (ms : JSONMembers) :
    (emitJSON (.obj ms)).length = (emitMembers ms).length + 2 := by
  show (lbraceChar :: emitMembers ms ++ [rbraceChar]).length = _
  simp

/-- a nonempty list serialization starts with its first value. -/
theorem emitList_cons_shape (h : JSON) (t : JSONList) (c0 : Char)
    (cs0 : List Char) (hh : emitJSON h = c0 :: cs0) :
    ∃ X, emitList (.cons h t) = c0 :: X := by
  cases t with
  | nil =>
    refine ⟨cs0, ?_⟩
    show emitJSON h = _
    rw [hh]
  | cons h2 t2 =>
    refine ⟨cs0 ++ ',' :: emitList (.cons h2 t2), ?_⟩
    show emitJSON h ++ ',' :: emitList (.cons h2 t2) = _
    rw [hh]
    rfl

/-- parsing the serialization of an array, given the element parser is
correct at the smaller fuel. -/
theorem parseVal_emit_arr (f : Nat) (xs : JSONList) (rest : List Char)
    (hlen : (emitJSON (.arr xs)).length < f + 1)
    (IH2 : ∀ (ys : JSONList) (r : List Char), ¬ ys = .nil →
      (emitList ys).length + 1 < f →
      parseElems f (emitList ys ++ ']' :: r) = some (ys, r)) :
    parseVal (f + 1) (emitJSON (.arr xs) ++ rest) = some (.arr xs, rest) := by
  have hlen2 : (emitList xs).length + 1 < f := by
    have := length_emitJSON_arr xs
    omega
  show parseVal (f + 1) (('[' :: emitList xs ++ [']']) ++ rest) = _
  simp only [List.cons_append, List.append_assoc, List.nil_append, parseVal]
  rw [skipWs_cons_of_not_ws '[' _ (by decide)]
  simp only [show (('[' : Char) = 'n') = False by simp,
    show (('[' : Char) = 't') = False by simp,
    show (('[' : Char) = 'f') = False by simp,
    show (('[' : Char) = '"') = False by simp, if_false, if_true,
    reduceIte]
  cases xs with
  | nil =>
    show (match skipWs ([] ++ ']' :: rest) with
      | [] => none
      | c2 :: r2 =>
        if c2 = ']' then some (JSON.arr .nil, r2)
        else (parseElems f (c2 :: r2)).map (fun p => (JSON.arr p.1, p.2))) =
      some (JSON.arr .nil, rest)
    rw [List.nil_append, skipWs_cons_of_not_ws ']' _ (by decide)]
    simp
  | cons h t =>
    obtain ⟨c0, cs0, hh, hw, hnb⟩ := emitJSON_head h
    obtain ⟨X, hX⟩ := emitList_cons_shape h t c0 cs0 hh
    rw [hX, List.cons_append]
    simp only [skipWs_cons_of_not_ws c0 (X ++ ']' :: rest) hw]
    rw [if_neg hnb, ← List.cons_append, ← hX,
      IH2 (.cons h t) rest (by simp) (hX ▸ hlen2)]
    rfl

/-- a nonempty member serialization starts with an opening quote. -/
theorem emitMembers_cons_shape (k : String) (v : JSON) (t : JSONMembers) :
    ∃ X, emitMembers (.cons k v t) = '"' :: X := by
  cases t with
  | nil => exact ⟨_, rfl⟩
  | cons k2 v2 t2 => exact ⟨_, rfl⟩

/-- parsing the serialization of an object, given the member parser is
correct at the smaller fuel. -/
theorem parseVal_emit_obj (f : Nat) (ms : JSONMembers) (rest : List Char)
    (hlen : (emitJSON (.obj ms)).length < f + 1)
    (IH3 : ∀ (ns : JSONMembers) (r : List Char), ¬ ns = .nil →
      (emitMembers ns).length + 1 < f →
      parseMembers f (emitMembers ns ++ rbraceChar :: r) = some (ns, r)) :
    parseVal (f + 1) (emitJSON (.obj ms) ++ rest) = some (.obj ms, rest) := by
  have hlen2 : (emitMembers ms).length + 1 < f := by
    have := length_emitJSON_obj ms
    omega
  show parseVal (f + 1) ((lbraceChar :: emitMembers ms ++ [rbraceChar]) ++ rest) = _
  simp only [List.cons_append, List.append_assoc, List.nil_append, parseVal]
  rw [skipWs_cons_of_not_ws lbraceChar _ (by decide)]
  simp only [show ((lbraceChar : Char) = 'n') = False by simp [lbraceChar],
    show ((lbraceChar : Char) = 't') = False by simp [lbraceChar],
    show ((lbraceChar : Char) = 'f') = False by simp [lbraceChar],
    show ((lbraceChar : Char) = '"') = False by simp [lbraceChar],
    show ((lbraceChar : Char) = '[') = False by simp [lbraceChar],
    if_false, if_true, reduceIte]
  cases ms with
  | nil =>
    show (match skipWs ([] ++ rbraceChar :: rest) with
      | [] => none
      | c2 :: r2 =>
        if c2 = rbraceChar then some (JSON.obj .nil, r2)
        else (parseMembers f (c2 :: r2)).map (fun p => (JSON.obj p.1, p.2))) =
      some (JSON.obj .nil, rest)
    rw [List.nil_append, skipWs_cons_of_not_ws rbraceChar _ (by decide)]
    simp
  | cons k v t =>
    obtain ⟨X, hX⟩ := emitMembers_cons_shape k v t
    rw [hX, List.cons_append]
    simp only [skipWs_cons_of_not_ws '"' (X ++ rbraceChar :: rest) (by decide)]
    rw [if_neg (show ¬ ('"' : Char) = rbraceChar by decide), ← List.cons_append,
      ← hX, IH3 (.cons k v t) rest (by simp) (hX ▸ hlen2)]
    rfl

/-- parsing serialized array elements, given correct sub-parsers at the
smaller fuel. -/
theorem parseElems_emit (f : Nat) (xs : JSONList) (rest : List Char)
    (hxs : ¬ xs = .nil)
    (hlen : (emitList xs).length + 1 < f + 1)
    (IH1 : ∀ (j : JSON) (r : List Char), (emitJSON j).length < f →
      tokenBoundaryB r = true → parseVal f (emitJSON j ++ r) = some (j, r))
    (IH2 : ∀ (ys : JSONList) (r : List Char), ¬ ys = .nil →
      (emitList ys).length + 1 < f →
      parseElems f (emitList ys ++ ']' :: r) = some (ys, r)) :
    parseElems (f + 1) (emitList xs ++ ']' :: rest) = some (xs, rest) := by
  cases xs with
  | nil => exact absurd rfl hxs
  | cons h t =>
    cases t with
    | nil =>
      have hlen1 : (emitJSON h).length < f := by
        have he : emitList (.cons h .nil) = emitJSON h := rfl
        rw [he] at hlen
        omega
      show parseElems (f + 1) (emitJSON h ++ ']' :: rest) = some (.cons h .nil, rest)
      simp only [parseElems]
      rw [IH1 h (']' :: rest) hlen1 (tokenBoundaryB_rbracket rest)]
      simp only [skipWs_cons_of_not_ws ']' rest (by decide)]
    | cons h2 t2 =>
      have hL : (emitList (.cons h (.cons h2 t2))).length =
          (emitJSON h).length + 1 + (emitList (.cons h2 t2)).length := by
        show (emitJSON h ++ ',' :: emitList (.cons h2 t2)).length = _
        simp
        omega
      have hone := one_le_length_emitJSON h
      have hlen1 : (emitJSON h).length < f := by omega
      have hlen2 : (emitList (.cons h2 t2)).length + 1 < f := by omega
      show parseElems (f + 1)
        ((emitJSON h ++ ',' :: emitList (.cons h2 t2)) ++ ']' :: rest) = _
      simp only [List.append_assoc, List.cons_append]
      simp only [parseElems]
      rw [IH1 h (',' :: (emitList (.cons h2 t2) ++ ']' :: rest)) hlen1
        (tokenBoundaryB_comma _)]
      simp only [skipWs_cons_of_not_ws ','
        (emitList (.cons h2 t2) ++ ']' :: rest) (by decide)]
      rw [IH2 (.cons h2 t2) rest (by simp) hlen2]
      rfl

/-- length of a string literal serialization. -/
theorem length_emitStr (k : String) :
    (emitStr k).length = (escChars k.toList).length + 2 := by
  show ('"' :: escChars k.toList ++ ['"']).length = _
  simp

/-- rebuilding a string from its underlying character data is the
identity. -/
theorem asString_data (s : String) : s.data.asString = s :=
  asString_toList s

/-- parsing serialized object members, given correct sub-parsers at the
smaller fuel. -/
theorem parseMembers_emit (f : Nat) (ms : JSONMembers) (rest : List Char)
    (hms : ¬ ms = .nil)
    (hlen : (emitMembers ms).length + 1 < f + 1)
    (IH1 : ∀ (j : JSON) (r : List Char), (emitJSON j).length < f →
      tokenBoundaryB r = true → parseVal f (emitJSON j ++ r) = some (j, r))
    (IH3 : ∀ (ns : JSONMembers) (r : List Char), ¬ ns = .nil →
      (emitMembers ns).length + 1 < f →
      parseMembers f (emitMembers ns ++ rbraceChar :: r) = some (ns, r)) :
    parseMembers (f + 1) (emitMembers ms ++ rbraceChar :: rest) = some (ms, rest) := by
  cases ms with
  | nil => exact absurd rfl hms
  | cons k v t =>
    have hesck := le_length_escChars k.toList
    have hESk := length_emitStr k
    cases t with
    | nil =>
      have hM : (emitMembers (.cons k v .nil)).length =
          (emitStr k).length + 1 + (emitJSON v).length := by
        show (emitStr k ++ ':' :: emitJSON v).length = _
        simp
        omega
      have hk : k.toList.length < f := by omega
      have hv : (emitJSON v).length < f := by omega
      show parseMembers (f + 1)
        ((('"' :: escChars k.toList ++ ['"']) ++ ':' :: emitJSON v) ++
          rbraceChar :: rest) = some (.cons k v .nil, rest)
      simp only [List.cons_append, List.append_assoc, List.nil_append, parseMembers]
      rw [parseStrBody_escChars k.toList f _ hk]
      simp only [skipWs_cons_of_not_ws ':' (emitJSON v ++ rbraceChar :: rest)
        (by decide)]
      rw [IH1 v (rbraceChar :: rest) hv (tokenBoundaryB_rbrace rest)]
      simp only [skipWs_cons_of_not_ws rbraceChar rest (by decide)]
      simp [asString_data, rbraceChar]
    | cons k2 v2 t2 =>
      have hM : (emitMembers (.cons k v (.cons k2 v2 t2))).length =
          (emitStr k).length + 1 + (emitJSON v).length + 1 +
            (emitMembers (.cons k2 v2 t2)).length := by
        show (emitStr k ++ ':' :: emitJSON v ++ ',' ::
          emitMembers (.cons k2 v2 t2)).length = _
        simp
        omega
      have hk : k.toList.length < f := by omega
      have hv : (emitJSON v).length < f := by omega
      have ht : (emitMembers (.cons k2 v2 t2)).length + 1 < f := by omega
      show parseMembers (f + 1)
        ((('"' :: escChars k.toList ++ ['"']) ++ ':' :: emitJSON v ++ ',' ::
          emitMembers (.cons k2 v2 t2)) ++ rbraceChar :: rest) =
        some (.cons k v (.cons k2 v2 t2), rest)
      simp only [List.cons_append, List.append_assoc, List.nil_append, parseMembers]
      rw [parseStrBody_escChars k.toList f _ hk]
      simp only [skipWs_cons_of_not_ws ':'
        (emitJSON v ++ ',' :: (emitMembers (.cons k2 v2 t2) ++ rbraceChar :: rest))
        (by decide)]
      rw [IH1 v (',' :: (emitMembers (.cons k2 v2 t2) ++ rbraceChar :: rest)) hv
        (tokenBoundaryB_comma _)]
      simp only [skipWs_cons_of_not_ws ','
        (emitMembers (.cons k2 v2 t2) ++ rbraceChar :: rest) (by decide)]
      obtain ⟨X, hX⟩ := emitMembers_cons_shape k2 v2 t2
      rw [hX, List.cons_append]
      simp only [skipWs_cons_of_not_ws '"' (X ++ rbraceChar :: rest) (by decide)]
      rw [← List.cons_append, ← hX, IH3 (.cons k2 v2 t2) rest (by simp) ht]
      simp [asString_data]

/-- the recursive-descent parser inverts the serializer at every fuel
above the output length (values, element lists, member lists). -/
theorem parse_emit_round (fuel : Nat) :
    (∀ (j : JSON) (rest : List Char),
        (emitJSON j).length < fuel → tokenBoundaryB rest = true →
        parseVal fuel (emitJSON j ++ rest) = some (j, rest)) ∧
    (∀ (xs : JSONList) (rest : List Char), ¬ xs = .nil →
        (emitList xs).length + 1 < fuel →
        parseElems fuel (emitList xs ++ ']' :: rest) = some (xs, rest)) ∧
    (∀ (ms : JSONMembers) (rest : List Char), ¬ ms = .nil →
        (emitMembers ms).length + 1 < fuel →
        parseMembers fuel (emitMembers ms ++ rbraceChar :: rest) = some (ms, rest)) := by
  induction fuel with
  | zero =>
    refine ⟨?_, ?_, ?_⟩
    · intro j rest h _
      exact absurd h (by omega)
    · intro xs rest _ h
      exact absurd h (by omega)
    · intro ms rest _ h
      exact absurd h (by omega)
  | succ f ih =>
    obtain ⟨ih1, ih2, ih3⟩ := ih
    refine ⟨?_, ?_, ?_⟩
    · intro j rest hlen hb
      cases j with
      | null => exact parseVal_emit_null f rest
      | bool b => exact parseVal_emit_bool f b rest
      | num i => exact parseVal_emit_num f i rest hb
      | str s => exact parseVal_emit_str f s rest hlen
      | arr xs => exact parseVal_emit_arr f xs rest hlen ih2
      | obj ms => exact parseVal_emit_obj f ms rest hlen ih3
    · intro xs rest hxs hlen
      exact parseElems_emit f xs rest hxs hlen ih1 ih2
    · intro ms rest hms hlen
      exact parseMembers_emit f ms rest hms hlen ih1 ih3

/-- characters of a rebuilt string. -/
theorem toList_asString (l : List Char) : l.asString.toList = l := rfl

/-- `JSON.parse` inverts `JSON.stringify`. -/
theorem jsonParse_stringify (j : JSON) : jsonParse (stringifyJSON j) = some j := by
  unfold jsonParse stringifyJSON
  rw [toList_asString]
  have h1 := (parse_emit_round ((emitJSON j).length + 1)).1 j [] (by omega) rfl
  rw [List.append_nil] at h1
  show (match parseVal ((emitJSON j).length + 1) (emitJSON j) with
    | some (j, rest) => if skipWs rest = [] then some j else none
    | none => none) = some j
  rw [h1]
  rfl

/-- trimming keeps a string that starts and ends with non-whitespace. -/
theorem jsTrimChars_keep (c d : Char) (mid : List Char)
    (hc : jsWhitespace c = false) (hd : jsWhitespace d = false) :
    jsTrimChars (c :: mid ++ [d]) = c :: mid ++ [d] := by
  unfold jsTrimChars
  rw [List.cons_append, List.dropWhile_cons, if_neg (by simp [hc]),
    ← List.cons_append, List.reverse_append]
  simp only [List.reverse_cons, List.reverse_nil, List.nil_append,
    List.singleton_append]
  rw [List.dropWhile_cons, if_neg (by simp [hd])]
  simp

/-- a fuelled global strip is the identity when the token never occurs. -/
theorem stripTokWs_of_not_contains (tok : List Char) :
    ∀ (f : Nat) (cs : List Char), containsTok tok cs = false →
      stripTokWs tok f cs = cs := by
  intro f
  induction f with
  | zero => intro cs _; rfl
  | succ f ihf =>
    intro cs h
    cases cs with
    | nil => rfl
    | cons c cs =>
      have h' : (tok.isPrefixOf (c :: cs) || containsTok tok cs) = false := h
      rw [Bool.or_eq_false_iff] at h'
      simp only [stripTokWs, h'.1, Bool.false_eq_true, if_false]
      rw [ihf cs h'.2]

/-- absence of occurrences is antitone in the token: a longer token with a
non-occurring prefix does not occur either. -/
theorem containsTok_mono (t1 t2 : List Char) (hp : t1 <+: t2) :
    ∀ cs, containsTok t1 cs = false → containsTok t2 cs = false := by
  intro cs
  induction cs with
  | nil =>
    intro h
    show t2.isEmpty = false
    have h1 : t1.isEmpty = false := h
    cases t1 with
    | nil => simp at h1
    | cons a t =>
      obtain ⟨u, hu⟩ := hp
      cases t2 with
      | nil => simp at hu
      | cons b t2t => rfl
  | cons c cs ih =>
    intro h
    have h' : (t1.isPrefixOf (c :: cs) || containsTok t1 cs) = false := h
    rw [Bool.or_eq_false_iff] at h'
    show (t2.isPrefixOf (c :: cs) || containsTok t2 cs) = false
    rw [Bool.or_eq_false_iff]
    refine ⟨?_, ih h'.2⟩
    by_contra hb
    have hb2 : t2.isPrefixOf (c :: cs) = true := by
      cases hx : t2.isPrefixOf (c :: cs) with
      | false => exact absurd hx hb
      | true => rfl
    rw [List.isPrefixOf_iff_prefix] at hb2
    have : t1 <+: (c :: cs) := hp.trans hb2
    rw [← List.isPrefixOf_iff_prefix] at this
    rw [this] at h'
    exact absurd h'.1 (by simp)

/-- taking a whole list back out of a substring slice. -/
theorem jsSubstringChars_full (cs : List Char) :
    jsSubstringChars cs 0 cs.length = cs := by
  unfold jsSubstringChars
  simp

/-- first-brace index of an object serialization. -/
theorem indexOfChar_emit_obj (ms : JSONMembers) :
    indexOfChar (emitJSON (.obj ms)) lbraceChar = some 0 := by
  show indexOfChar (lbraceChar :: emitMembers ms ++ [rbraceChar]) lbraceChar = _
  unfold indexOfChar
  rw [List.cons_append, List.findIdx?_cons]
  simp

/-- last-brace index of an object serialization. -/
theorem lastIndexOfChar_emit_obj (ms : JSONMembers) :
    lastIndexOfChar (emitJSON (.obj ms)) rbraceChar =
      some ((emitMembers ms).length + 1) := by
  show lastIndexOfChar (lbraceChar :: emitMembers ms ++ [rbraceChar]) rbraceChar = _
  unfold lastIndexOfChar
  have hrev : (lbraceChar :: emitMembers ms ++ [rbraceChar]).reverse =
      rbraceChar :: (lbraceChar :: emitMembers ms).reverse := by
    rw [List.reverse_append]
    simp
  rw [hrev, List.findIdx?_cons]
  simp

/-- C8 (amended core): decoding the canonical serialization of an object
whose serialization contains no fence marker returns the object. -/
theorem parseJSONResponse_stringify_obj (ms : JSONMembers)
    (hnf : containsTok ("```".toList) (emitJSON (.obj ms)) = false) :
    parseJSONResponse (stringifyJSON (.obj ms)) = .ok (.obj ms) := by
  have hjson : containsTok ("```json".toList) (emitJSON (.obj ms)) = false :=
    containsTok_mono _ _ ⟨"json".toList, by decide⟩ _ hnf
  have htrim : jsTrimChars (emitJSON (.obj ms)) = emitJSON (.obj ms) := by
    show jsTrimChars (lbraceChar :: emitMembers ms ++ [rbraceChar]) = _
    exact jsTrimChars_keep lbraceChar rbraceChar (emitMembers ms)
      (by decide) (by decide)
  simp only [parseJSONResponse, stringifyJSON, toList_asString]
  rw [htrim, stripTokWs_of_not_contains ("```json".toList) _ _ hjson,
    stripTokWs_of_not_contains ("```".toList) _ _ hnf,
    indexOfChar_emit_obj ms, lastIndexOfChar_emit_obj ms]
  have hL : (emitMembers ms).length + 1 + 1 = (emitJSON (.obj ms)).length := by
    rw [length_emitJSON_obj]
  show (match jsonParse (jsSubstringChars (emitJSON (.obj ms)) 0
      ((emitMembers ms).length + 1 + 1)).asString with
    | some j => Except.ok j
    | none => Except.error "Invalid JSON response from AI: SyntaxError") =
    Except.ok (JSON.obj ms)
  rw [hL, jsSubstringChars_full,
    show (emitJSON (.obj ms)).asString = stringifyJSON (.obj ms) from rfl,
    jsonParse_stringify]

/-- C8: [corrected] the response decoder is idempotent on objects it
produced, provided the object's canonical serialization contains no
fenced-code marker (three consecutive backticks): decoding the canonical
serialization then succeeds and returns the same object.  Without that
proviso the claim is false, because the decoder's fence-stripping pass
also rewrites backtick runs inside string values. -/
theorem C8_decode_idempotent (ms : JSONMembers)
    (hnf : containsTok ("```".toList) (emitJSON (.obj ms)) = false) :
    parseJSONResponse (stringifyJSON (.obj ms)) = .ok (.obj ms) :=
  parseJSONResponse_stringify_obj ms hnf

/-- C8 witness: the amended theorem applied to the object with the single
member `a: 1`. -/
theorem C8_decode_idempotent_witness :
    containsTok ("```".toList)
      (emitJSON (.obj (.cons "a" (.num 1) .nil))) = false ∧
    parseJSONResponse (stringifyJSON (.obj (.cons "a" (.num 1) .nil))) =
      .ok (.obj (.cons "a" (.num 1) .nil)) :=
  ⟨by decide, C8_decode_idempotent (.cons "a" (.num 1) .nil) (by decide)⟩

/-- C8 counterexample: the decoder itself produces the object with member
`a` holding three backticks (from a raw response that spells them with
unicode escapes), yet decoding that object's canonical serialization
returns a different object, with the backticks stripped from the value. -/
theorem C8_decode_idempotent_counterexample :
    parseJSONResponse "\x7b\"a\":\"\\u0060\\u0060\\u0060\"\x7d" =
      .ok (.obj (.cons "a" (.str "```") .nil)) ∧
    parseJSONResponse (stringifyJSON (.obj (.cons "a" (.str "```") .nil))) =
      .ok (.obj (.cons "a" (.str "") .nil)) ∧
    JSON.str "```" ≠ JSON.str "" := by
  refine ⟨by decide, by decide, by decide⟩
